import Mathlib

/-!
Verification of the uStreamer MPP hardware-encoder pipeline:
shallow embedding of the scale-policy resolver (encoder.c), the MPP encoder
adapter (encoder.c), the NV12 downscaler (encoder.c), the text overlay
(overlay.c) and the blocking compositor (blocking.c), with theorems checking
the natural-language specification against the code.
-/

set_option maxHeartbeats 1600000
set_option maxRecDepth 4096

/-! # Part 1: definitions -/

/-- A byte buffer, modelled as a total map from byte offsets to byte values.
The C code works on `u8 *` pointers; reads out of the written region return
whatever the underlying function yields. -/
abbrev Buf := Nat → Nat

/-- Write byte `v` at offset `i` of buffer `b` (a single `b[i] = v` store). -/
def wr (b : Buf) (i v : Nat) : Buf := fun j => if j = i then v else b j

/-- Sequential loop combinator: run the body `f` on indices
`i, i+1, ..., i+n-1` in order, threading the state.  Every C `for` loop of
the embedded code is an instance of `iterGo`. -/
def iterGo {α : Type} (f : Nat → α → α) : Nat → Nat → α → α
  | _, 0, a => a
  | i, n + 1, a => iterGo f (i + 1) n (f i a)

/-- `MPP_ALIGN(x, 16)` from encoder.c: `((x + 15) & ~15)`, i.e. round up
to a multiple of 16. -/
def align16 (x : Nat) : Nat := (x + 15) / 16 * 16

/-- C `x & ~1` on an unsigned value: clear the low bit. -/
def clearBit0 (x : Nat) : Nat := x - x % 2

/-- C `x &= ~1` on a (two's-complement) signed value: round down to even.
Lean's `%` on `Int` is the Euclidean remainder, so `x - x % 2` is exactly
the two's-complement clear-low-bit. -/
def evenFloorInt (x : Int) : Int := x - x % 2

/-- C conversion of a signed `int` to `uint` (`uint cur_x = pos_x;`):
reduce modulo `2^32`. -/
def toUint32 (x : Int) : Nat := (x % 4294967296).toNat

/-- `memcpy(dst + dst_off, src + src_off, n)` on byte buffers. -/
def memcpyBuf (dst : Buf) (dst_off : Nat) (src : Buf) (src_off n : Nat) : Buf :=
  iterGo (fun i b => wr b (dst_off + i) (src (src_off + i))) 0 n dst

/-- View of a buffer starting at byte offset `off` (a C pointer `b + off`). -/
def bufShift (b : Buf) (off : Nat) : Buf := fun j => b (off + j)

/-- Reassemble one allocation from its Y-plane view (offsets `< split`) and
its UV-plane view (offsets from `split` on). -/
def bufJoin (split : Nat) (ypart uvpart : Buf) : Buf :=
  fun j => if j < split then ypart j else uvpart (j - split)

/-- The C clamp idiom `x < lo ? lo : (x > hi ? hi : x)` followed by the
truncating cast to `u8` (lossless for `0 ≤ lo ≤ hi ≤ 255`). -/
def c_clamp (lo hi x : Int) : Nat :=
  (if x < lo then lo else if x > hi then hi else x).toNat

/-! ## Pixel formats and the scale policy (encoder.c `_get_target_resolution`) -/

/-- The V4L2 pixel formats accepted by the MPP encoder path
(`_v4l2_to_mpp_format` cases), plus JPEG for the output frames. -/
inductive PixelFormat
  | NV12 | NV16 | NV24 | YUYV | UYVY | RGB24 | BGR24 | JPEG
deriving DecidableEq, Repr

/-- `us_encode_scale_e`: the global `--encode-scale` policy token. -/
inductive ScalePolicy
  | native   -- US_ENCODE_SCALE_NATIVE
  | p1080    -- US_ENCODE_SCALE_1080P
  | p2K      -- US_ENCODE_SCALE_2K
  | p4K      -- US_ENCODE_SCALE_4K
deriving DecidableEq, Repr

/-- Input-frame geometry as read by `_get_target_resolution`. -/
structure FrameGeom where
  width : Nat
  height : Nat
  format : PixelFormat
deriving DecidableEq, Repr

/-- encoder.c `_get_target_resolution`: switch on the scale policy, then
clamp both dimensions so they never exceed the source. -/
def us_get_target_resolution (scale : ScalePolicy) (src : FrameGeom) : Nat × Nat :=
  let raw : Nat × Nat :=
    match scale with
    | .p1080 => (1920, 1080)
    | .p2K => (2560, 1440)
    | .p4K => (src.width, src.height)
    | .native =>
      if src.width ≥ 3840 ∧ src.height ≥ 2160 ∧ src.format = .NV12 then
        (1920, 1080)
      else
        (src.width, src.height)
  let tw := if raw.1 > src.width then src.width else raw.1
  let th := if raw.2 > src.height then src.height else raw.2
  (tw, th)

/-- encoder.c `us_mpp_encoder_compress` line 99: downscale is needed exactly
when the resolved target differs from the source geometry. -/
def us_needs_downscale (scale : ScalePolicy) (src : FrameGeom) : Bool :=
  let t := us_get_target_resolution scale src
  decide (t.1 ≠ src.width ∨ t.2 ≠ src.height)

/-- The full resolver `(tw, th, needs_downscale)` as the spec describes it. -/
def resolve_target (scale : ScalePolicy) (src : FrameGeom) : Nat × Nat × Bool :=
  let t := us_get_target_resolution scale src
  (t.1, t.2, us_needs_downscale scale src)

/-- The spec's rule table for the target resolution, written from the words
of the claim (for the refinement comparison with the code). -/
def resolve_target_spec_table (scale : ScalePolicy) (src : FrameGeom) : Nat × Nat :=
  match scale with
  | .p1080 => (min src.width 1920, min src.height 1080)
  | .p2K => (min src.width 2560, min src.height 1440)
  | .p4K => (src.width, src.height)
  | .native =>
    if src.width ≥ 3840 ∧ src.height ≥ 2160 ∧ src.format = .NV12 then
      (1920, 1080)
    else
      (src.width, src.height)

/-! ## NV12 copy and downscale (encoder.c `_copy_nv12_aligned`, `_downscale_nv12`) -/

/-- encoder.c `_copy_nv12_aligned`: row-wise copy of a packed NV12 frame into
a stride-aligned destination; block copies when the strides already match. -/
def us_copy_nv12_aligned (src : Buf) (src_width src_height : Nat)
    (dst : Buf) (dst_hor_stride dst_ver_stride : Nat) : Buf :=
  let src_uv := src_width * src_height
  let dst_uv := dst_hor_stride * dst_ver_stride
  let b1 :=
    if src_width = dst_hor_stride then
      memcpyBuf dst 0 src 0 (src_width * src_height)
    else
      iterGo (fun y b => memcpyBuf b (y * dst_hor_stride) src (y * src_width) src_width)
        0 src_height dst
  let uv_height := src_height / 2
  if src_width = dst_hor_stride then
    memcpyBuf b1 dst_uv src src_uv (src_width * uv_height)
  else
    iterGo (fun y b =>
        memcpyBuf b (dst_uv + y * dst_hor_stride) src (src_uv + y * src_width) src_width)
      0 uv_height b1

/-- One Y row of `_downscale_nv12`: nearest-neighbour sample row `dy` of the
destination from source row `(dy * scale_y_fp) >> 16`. -/
def ds_y_row (src : Buf) (src_width scale_x_fp scale_y_fp dst_y_stride dst_width : Nat)
    (dy : Nat) (b : Buf) : Buf :=
  let sy := (dy * scale_y_fp) >>> 16
  iterGo (fun dx b =>
      wr b (dy * dst_y_stride + dx)
        (src (sy * src_width + ((dx * scale_x_fp) >>> 16))))
    0 dst_width b

/-- One UV row of `_downscale_nv12`: the loop steps two destination bytes per
iteration (`dx += 2`), so it runs `(dst_width + 1) / 2` times; the source
column is the pair-aligned `((dx * scale_x_fp) >> 16) & ~1`. -/
def ds_uv_row (src : Buf)
    (src_width scale_x_fp scale_uv_y_fp dst_uv_stride dst_width src_uv dst_uv_base : Nat)
    (dy : Nat) (b : Buf) : Buf :=
  let sy := (dy * scale_uv_y_fp) >>> 16
  iterGo (fun k b =>
      let dx := 2 * k
      let sx := clearBit0 ((dx * scale_x_fp) >>> 16)
      wr (wr b (dst_uv_base + dy * dst_uv_stride + dx) (src (src_uv + sy * src_width + sx)))
        (dst_uv_base + dy * dst_uv_stride + dx + 1)
        (src (src_uv + sy * src_width + sx + 1)))
    0 ((dst_width + 1) / 2) b

/-- encoder.c `_downscale_nv12`: nearest-neighbour NV12 downscale with 16.16
fixed-point factors into a 16-aligned destination. -/
def us_downscale_nv12 (src : Buf) (src_width src_height : Nat)
    (dst : Buf) (dst_width dst_height : Nat) : Buf :=
  let dst_y_stride := align16 dst_width
  let dst_uv_stride := dst_y_stride
  let scale_x_fp := (src_width <<< 16) / dst_width
  let scale_y_fp := (src_height <<< 16) / dst_height
  let src_uv := src_width * src_height
  let dst_uv := dst_y_stride * align16 dst_height
  let b1 :=
    iterGo (ds_y_row src src_width scale_x_fp scale_y_fp dst_y_stride dst_width)
      0 dst_height dst
  let src_uv_height := src_height / 2
  let dst_uv_height := dst_height / 2
  let scale_uv_y_fp := (src_uv_height <<< 16) / dst_uv_height
  iterGo (ds_uv_row src src_width scale_x_fp scale_uv_y_fp dst_uv_stride dst_width
      src_uv dst_uv)
    0 dst_uv_height b1

/-! ## Text overlay (overlay.c) -/

/-- `us_overlay_pos_e`. -/
inductive OverlayPos
  | topLeft | topRight | bottomLeft | bottomRight | center | custom
deriving DecidableEq, Repr

/-- `us_overlay_config_s`.  The text is a list of byte values (no 0 bytes:
C strings are NUL-terminated); `10` is the newline character. -/
structure OverlayConfig where
  enabled : Bool
  text : List Nat
  position : OverlayPos
  x : Int
  y : Int
  scale : Nat
  y_color : Nat
  u_color : Nat
  v_color : Nat
  background : Bool
  bg_y : Nat
  bg_u : Nat
  bg_v : Nat
  bg_alpha : Nat
  padding : Nat

/-- overlay.c `_calc_text_size`: widest line times 8x8 glyph cells times
scale.  The fold state is `(max_line_width, current_line_width, num_lines)`. -/
def us_calc_text_size (text : List Nat) (scale : Nat) : Nat × Nat :=
  if text = [] then (0, 0)
  else
    let acc := text.foldl
      (fun (a : Nat × Nat × Nat) c =>
        if c = 10 then (max a.1 a.2.1, 0, a.2.2 + 1)
        else (a.1, a.2.1 + 1, a.2.2))
      (0, 0, 1)
    let max_line_width := max acc.1 acc.2.1
    (max_line_width * 8 * scale, acc.2.2 * 8 * scale)

/-- overlay.c `_calc_position`: pick the anchor for the position preset, then
clamp to the frame bounds (all arithmetic on C `int`; division in the
`center` case truncates towards zero just as C does). -/
def us_calc_position (config : OverlayConfig) (frame_width frame_height : Nat)
    (text_width text_height : Nat) : Int × Int :=
  let total_width : Int := (text_width : Int) + 2 * (config.padding : Int)
  let total_height : Int := (text_height : Int) + 2 * (config.padding : Int)
  let fw : Int := frame_width
  let fh : Int := frame_height
  let p0 : Int × Int :=
    match config.position with
    | .topLeft => ((config.padding : Int), (config.padding : Int))
    | .topRight => (fw - total_width, (config.padding : Int))
    | .bottomLeft => ((config.padding : Int), fh - total_height)
    | .bottomRight => (fw - total_width, fh - total_height)
    | .center => (Int.tdiv (fw - total_width) 2, Int.tdiv (fh - total_height) 2)
    | .custom => (config.x, config.y)
  let x1 := if p0.1 < 0 then 0 else p0.1
  let y1 := if p0.2 < 0 then 0 else p0.2
  let x2 := if x1 + total_width > fw then fw - total_width else x1
  let y2 := if y1 + total_height > fh then fh - total_height else y1
  (x2, y2)

/-- The `(u8)((alpha_fg * c + alpha_bg * old) >> 8)` blend of
`_draw_rect_nv12` (the cast keeps the low 8 bits). -/
def rect_blend (alpha_fg alpha_bg c old : Nat) : Nat :=
  ((alpha_fg * c + alpha_bg * old) >>> 8) % 256

/-- overlay.c `_draw_rect_nv12`: alpha-blend a filled box onto the Y plane,
and onto the UV plane once per 2x2 block (even coordinates only). -/
def us_draw_rect_nv12 (y_plane uv_plane : Buf) (y_stride uv_stride : Nat)
    (frame_width frame_height : Nat) (x y width height : Nat)
    (bg_y bg_u bg_v alpha : Nat) : Buf × Buf :=
  let alpha_fg := alpha
  let alpha_bg := 256 - alpha
  iterGo (fun py st =>
      iterGo (fun px (st : Buf × Buf) =>
          let yoff := py * y_stride + px
          let st1 := (wr st.1 yoff (rect_blend alpha_fg alpha_bg bg_y (st.1 yoff)), st.2)
          if px % 2 = 0 ∧ py % 2 = 0 then
            let o := py / 2 * uv_stride + px
            (st1.1,
              wr (wr st1.2 o (rect_blend alpha_fg alpha_bg bg_u (st1.2 o)))
                (o + 1) (rect_blend alpha_fg alpha_bg bg_v (st1.2 (o + 1))))
          else st1)
        x (min (x + width) frame_width - x) st)
    y (min (y + height) frame_height - y) (y_plane, uv_plane)

/-- Y-plane projection of `_draw_rect_nv12` (same loop, Y writes only). -/
def us_draw_rect_nv12_y (y_plane : Buf) (y_stride : Nat)
    (frame_width frame_height : Nat) (x y width height : Nat)
    (bg_y alpha : Nat) : Buf :=
  let alpha_fg := alpha
  let alpha_bg := 256 - alpha
  iterGo (fun py b =>
      iterGo (fun px b =>
          let yoff := py * y_stride + px
          wr b yoff (rect_blend alpha_fg alpha_bg bg_y (b yoff)))
        x (min (x + width) frame_width - x) b)
    y (min (y + height) frame_height - y) y_plane

/-- UV-plane projection of `_draw_rect_nv12` (same loop, UV writes only). -/
def us_draw_rect_nv12_uv (uv_plane : Buf) (uv_stride : Nat)
    (frame_width frame_height : Nat) (x y width height : Nat)
    (bg_u bg_v alpha : Nat) : Buf :=
  let alpha_fg := alpha
  let alpha_bg := 256 - alpha
  iterGo (fun py b =>
      iterGo (fun px b =>
          if px % 2 = 0 ∧ py % 2 = 0 then
            let o := py / 2 * uv_stride + px
            wr (wr b o (rect_blend alpha_fg alpha_bg bg_u (b o)))
              (o + 1) (rect_blend alpha_fg alpha_bg bg_v (b (o + 1)))
          else b)
        x (min (x + width) frame_width - x) b)
    y (min (y + height) frame_height - y) uv_plane

/-- overlay.c `_draw_char_nv12`: draw one 8x8 bitmap glyph scaled by pixel
replication.  The font table `US_FRAMETEXT_FONT` lives in a header outside
the provided sources, so the glyph rows are a parameter
`font : Nat → Nat → Nat` (character index to row byte); characters `≥ 128`
fall back to `?` (63), exactly as the code clamps `ch_idx`. -/
def us_draw_char_nv12 (y_plane uv_plane : Buf) (y_stride uv_stride : Nat)
    (frame_width frame_height : Nat) (x y : Nat)
    (font : Nat → Nat → Nat) (ch : Nat) (scale : Nat)
    (fg_y fg_u fg_v : Nat) : Buf × Buf :=
  let ch_idx := if ch ≥ 128 then 63 else ch
  let glyph := font ch_idx
  iterGo (fun cy st =>
      iterGo (fun cx (st : Buf × Buf) =>
          if (glyph cy >>> cx) % 2 = 1 then
            iterGo (fun sy st =>
                iterGo (fun sx (st : Buf × Buf) =>
                    let px := x + cx * scale + sx
                    let py := y + cy * scale + sy
                    if px ≥ frame_width ∨ py ≥ frame_height then st
                    else
                      let st1 := (wr st.1 (py * y_stride + px) fg_y, st.2)
                      if px % 2 = 0 ∧ py % 2 = 0 then
                        let o := py / 2 * uv_stride + px
                        (st1.1, wr (wr st1.2 o fg_u) (o + 1) fg_v)
                      else st1)
                  0 scale st)
              0 scale st
          else st)
        0 8 st)
    0 8 (y_plane, uv_plane)

/-- Y-plane projection of `_draw_char_nv12`. -/
def us_draw_char_nv12_y (y_plane : Buf) (y_stride : Nat)
    (frame_width frame_height : Nat) (x y : Nat)
    (font : Nat → Nat → Nat) (ch : Nat) (scale : Nat) (fg_y : Nat) : Buf :=
  let ch_idx := if ch ≥ 128 then 63 else ch
  let glyph := font ch_idx
  iterGo (fun cy b =>
      iterGo (fun cx b =>
          if (glyph cy >>> cx) % 2 = 1 then
            iterGo (fun sy b =>
                iterGo (fun sx b =>
                    let px := x + cx * scale + sx
                    let py := y + cy * scale + sy
                    if px ≥ frame_width ∨ py ≥ frame_height then b
                    else wr b (py * y_stride + px) fg_y)
                  0 scale b)
              0 scale b
          else b)
        0 8 b)
    0 8 y_plane

/-- UV-plane projection of `_draw_char_nv12`. -/
def us_draw_char_nv12_uv (uv_plane : Buf) (uv_stride : Nat)
    (frame_width frame_height : Nat) (x y : Nat)
    (font : Nat → Nat → Nat) (ch : Nat) (scale : Nat) (fg_u fg_v : Nat) : Buf :=
  let ch_idx := if ch ≥ 128 then 63 else ch
  let glyph := font ch_idx
  iterGo (fun cy b =>
      iterGo (fun cx b =>
          if (glyph cy >>> cx) % 2 = 1 then
            iterGo (fun sy b =>
                iterGo (fun sx b =>
                    let px := x + cx * scale + sx
                    let py := y + cy * scale + sy
                    if px ≥ frame_width ∨ py ≥ frame_height then b
                    else if px % 2 = 0 ∧ py % 2 = 0 then
                      let o := py / 2 * uv_stride + px
                      wr (wr b o fg_u) (o + 1) fg_v
                    else b)
                  0 scale b)
              0 scale b
          else b)
        0 8 b)
    0 8 uv_plane

/-- The set of Y-plane offsets written by `_draw_char_nv12`: some set glyph
bit lands (scaled) on this offset inside the frame. -/
def char_covered (y_stride frame_width frame_height x y : Nat)
    (glyph : Nat → Nat) (scale : Nat) (j : Nat) : Prop :=
  ∃ cy cx sy sx, cy < 8 ∧ cx < 8 ∧ (glyph cy >>> cx) % 2 = 1 ∧
    sy < scale ∧ sx < scale ∧
    x + cx * scale + sx < frame_width ∧ y + cy * scale + sy < frame_height ∧
    j = (y + cy * scale + sy) * y_stride + (x + cx * scale + sx)

/-- overlay.c `us_overlay_draw_nv12`.  The config is the snapshot taken
under the mutex; the font table is a parameter as in `us_draw_char_nv12`.
Returns the updated `(y_plane, uv_plane)` pair. -/
def us_overlay_draw_nv12 (config : OverlayConfig) (font : Nat → Nat → Nat)
    (y_plane uv_plane : Buf) (width height : Nat)
    (y_stride uv_stride : Nat) : Buf × Buf :=
  if ¬ config.enabled ∨ config.text = [] then (y_plane, uv_plane)
  else
    let t := us_calc_text_size config.text config.scale
    let text_width := t.1
    let text_height := t.2
    if text_width = 0 ∨ text_height = 0 then (y_plane, uv_plane)
    else
      let p := us_calc_position config width height text_width text_height
      let pos_x := p.1
      let pos_y := p.2
      let st0 :=
        if config.background then
          let bg_x : Nat :=
            if pos_x > (config.padding : Int) then (pos_x - (config.padding : Int)).toNat else 0
          let bg_y_pos : Nat :=
            if pos_y > (config.padding : Int) then (pos_y - (config.padding : Int)).toNat else 0
          us_draw_rect_nv12 y_plane uv_plane y_stride uv_stride width height
            bg_x bg_y_pos (text_width + 2 * config.padding) (text_height + 2 * config.padding)
            config.bg_y config.bg_u config.bg_v config.bg_alpha
        else (y_plane, uv_plane)
      let r := config.text.foldl
        (fun (a : (Buf × Buf) × Nat × Nat) c =>
          if c = 10 then (a.1, toUint32 pos_x, a.2.2 + 8 * config.scale)
          else
            (us_draw_char_nv12 a.1.1 a.1.2 y_stride uv_stride width height
              a.2.1 a.2.2 font c config.scale
              config.y_color config.u_color config.v_color,
              a.2.1 + 8 * config.scale, a.2.2))
        (st0, toUint32 pos_x, toUint32 pos_y)
      r.1

/-- overlay.c `us_overlay_rgb_to_yuv`: BT.601 limited-range conversion of one
RGB triple.  C's `>> 8` on a (possibly negative) `int` is an arithmetic
shift, i.e. floor division by 256 (`Int.fdiv`). -/
def us_overlay_rgb_to_yuv (r g b : Nat) : Nat × Nat × Nat :=
  let y_tmp : Int := Int.fdiv (66 * (r : Int) + 129 * (g : Int) + 25 * (b : Int) + 128) 256 + 16
  let u_tmp : Int := Int.fdiv (-38 * (r : Int) - 74 * (g : Int) + 112 * (b : Int) + 128) 256 + 128
  let v_tmp : Int := Int.fdiv (112 * (r : Int) - 94 * (g : Int) - 18 * (b : Int) + 128) 256 + 128
  (c_clamp 16 235 y_tmp, c_clamp 16 240 u_tmp, c_clamp 16 240 v_tmp)

/-! ## MPP encoder adapter (encoder.c) -/

/-- `MppFrameFormat` values reachable from `_v4l2_to_mpp_format`. -/
inductive MppFormat
  | YUV420SP | YUV422SP | YUV444SP | BGR888 | RGB888 | YUV422_YUYV | YUV422_UYVY | BUTT
deriving DecidableEq, Repr

/-- encoder.c `_v4l2_to_mpp_format`. -/
def us_v4l2_to_mpp_format : PixelFormat → MppFormat
  | .NV12 => .YUV420SP
  | .NV16 => .YUV422SP
  | .NV24 => .YUV444SP
  | .YUYV => .YUV422_YUYV
  | .UYVY => .YUV422_UYVY
  | .RGB24 => .RGB888
  | .BGR24 => .BGR888
  | .JPEG => .BUTT

/-- The configuration-relevant fields of `us_mpp_encoder_s`.  The vendor
context and DMA handles are abstracted by the vendor oracle below. -/
structure MppEncState where
  quality : Nat
  width : Nat
  height : Nat
  hor_stride : Nat
  ver_stride : Nat
  mpp_format : MppFormat
  ready : Bool
deriving DecidableEq, Repr

/-- encoder.c `_mpp_encoder_cleanup`: drop readiness and the configured
dimensions (the released vendor handles are not part of the state). -/
def us_mpp_encoder_cleanup (enc : MppEncState) : MppEncState :=
  { enc with ready := false, width := 0, height := 0 }

/-- encoder.c frame-buffer size switch in `_mpp_encoder_prepare`. -/
def mpp_frame_size (enc : MppEncState) : Nat :=
  match enc.mpp_format with
  | .YUV420SP => enc.hor_stride * enc.ver_stride * 3 / 2
  | .YUV422SP => enc.hor_stride * enc.ver_stride * 2
  | .YUV444SP => enc.hor_stride * enc.ver_stride * 3
  | .BGR888 => enc.hor_stride * enc.ver_stride * 3
  | .RGB888 => enc.hor_stride * enc.ver_stride * 3
  | .YUV422_YUYV => enc.hor_stride * enc.ver_stride * 2
  | .YUV422_UYVY => enc.hor_stride * enc.ver_stride * 2
  | .BUTT => enc.hor_stride * enc.ver_stride * 3

/-- Outcomes of the vendor (Rockchip MPP) library calls made during one
`prepare` + `compress` round: each fallible call is an oracle boolean, and
the retrieved packet is `none` (NULL) or its byte list. -/
structure MppVendor where
  create_ok : Bool
  init_ok : Bool
  cfg_init_ok : Bool
  cfg_get_ok : Bool
  cfg_set_ok : Bool
  buf_grp_ok : Bool
  frame_buf_ok : Bool
  pkt_buf_ok : Bool
  frame_init_ok : Bool
  buf_ptr_ok : Bool
  put_ok : Bool
  get_ok : Bool
  packet : Option (List Nat)

/-- encoder.c `_mpp_encoder_prepare`: reuse the configuration when it already
matches, otherwise tear down and rebuild; any vendor failure lands back in
the cleaned-up state with `-1`.  (The quality clamp `jpeg:quant =
clamp(quality, 1, 99)` only writes into the vendor config object, which the
oracle absorbs.) -/
def us_mpp_encoder_prepare (v : MppVendor) (enc : MppEncState)
    (width height : Nat) (format : PixelFormat) : Int × MppEncState :=
  let mpp_format := us_v4l2_to_mpp_format format
  if mpp_format = .BUTT then (-1, enc)
  else if enc.ready ∧ enc.width = width ∧ enc.height = height ∧ enc.mpp_format = mpp_format then
    (0, enc)
  else
    let enc := us_mpp_encoder_cleanup enc
    let enc := { enc with
      width := width
      height := height
      mpp_format := mpp_format
      hor_stride := align16 width
      ver_stride := align16 height }
    if ¬ v.create_ok then (-1, us_mpp_encoder_cleanup enc)
    else if ¬ v.init_ok then (-1, us_mpp_encoder_cleanup enc)
    else if ¬ v.cfg_init_ok then (-1, us_mpp_encoder_cleanup enc)
    else if ¬ v.cfg_get_ok then (-1, us_mpp_encoder_cleanup enc)
    else if ¬ v.cfg_set_ok then (-1, us_mpp_encoder_cleanup enc)
    else if ¬ v.buf_grp_ok then (-1, us_mpp_encoder_cleanup enc)
    else if ¬ v.frame_buf_ok then (-1, us_mpp_encoder_cleanup enc)
    else if ¬ v.pkt_buf_ok then (-1, us_mpp_encoder_cleanup enc)
    else (0, { enc with ready := true })

/-- A captured source frame as handed to `us_mpp_encoder_compress`. -/
structure SrcFrame where
  width : Nat
  height : Nat
  format : PixelFormat
  data : Buf
  used : Nat

/-- Geometry view of a source frame. -/
def srcGeom (s : SrcFrame) : FrameGeom := ⟨s.width, s.height, s.format⟩

/-- The destination (output) frame fields touched by `compress`. -/
structure DestFrame where
  data : List Nat
  used : Nat
  format : PixelFormat
  key : Bool
  gop : Nat
  encode_begin_ts : Nat
  encode_end_ts : Nat
deriving DecidableEq, Repr

/-- Modelled from the spec: `us_frame_encoding_begin` (libs/frame.c is not
among the provided sources).  The spec says `encode_begin_ts` is "set on
entry" and the output format is JPEG; we stamp both with the entry
timestamp argument. -/
def us_frame_encoding_begin (dest : DestFrame) (ts : Nat) : DestFrame :=
  { dest with encode_begin_ts := ts, format := .JPEG }

/-- Modelled from the spec: `us_frame_encoding_end` — "`encode_end_ts` on
success". -/
def us_frame_encoding_end (dest : DestFrame) (ts : Nat) : DestFrame :=
  { dest with encode_end_ts := ts }

/-- Modelled from the spec: `us_frame_set_data` — "copy its `{data, length}`
into `out_frame`". -/
def us_frame_set_data (dest : DestFrame) (bytes : List Nat) : DestFrame :=
  { dest with data := bytes, used := bytes.length }

/-- encoder.c `us_mpp_encoder_compress`.  Parameters beyond the C signature
carry the ambient state the C reads through globals and vendor handles:
the scale policy (`us_g_encode_scale`), the overlay snapshot (`us_g_overlay`,
`none` when the global is NULL), the font table, the vendor oracle, the
current DMA frame-buffer bytes and the entry/finish timestamps.
Returns `(return value, encoder state, destination frame, DMA buffer)`. -/
def us_mpp_encoder_compress (scale : ScalePolicy) (overlay : Option OverlayConfig)
    (font : Nat → Nat → Nat) (v : MppVendor) (tb te : Nat)
    (enc : MppEncState) (frame_buf : Buf) (src : SrcFrame) (dest : DestFrame) :
    Int × MppEncState × DestFrame × Buf :=
  let dest := us_frame_encoding_begin dest tb
  let t := us_get_target_resolution scale (srcGeom src)
  let target_width := t.1
  let target_height := t.2
  let needs_downscale : Bool := decide (target_width ≠ src.width ∨ target_height ≠ src.height)
  let p := us_mpp_encoder_prepare v enc target_width target_height src.format
  if p.1 < 0 then (-1, p.2, dest, frame_buf)
  else
    let enc := p.2
    if ¬ enc.ready then (-1, enc, dest, frame_buf)
    else if ¬ v.frame_init_ok then (-1, enc, dest, frame_buf)
    else if ¬ v.buf_ptr_ok then (-1, enc, dest, frame_buf)
    else
      let buf_size := mpp_frame_size enc
      let buf : Buf := fun j => if j < buf_size then 0 else frame_buf j
      let copied : Option Buf :=
        if needs_downscale ∧ src.format = .NV12 then
          some (us_downscale_nv12 src.data src.width src.height buf target_width target_height)
        else if src.format = .NV12 then
          some (us_copy_nv12_aligned src.data src.width src.height buf
            enc.hor_stride enc.ver_stride)
        else if src.used > buf_size then none
        else some (memcpyBuf buf 0 src.data 0 src.used)
      match copied with
      | none => (-1, enc, dest, buf)
      | some buf =>
        let buf :=
          if src.format = .NV12 then
            match overlay with
            | some cfg =>
              let split := enc.hor_stride * enc.ver_stride
              let r := us_overlay_draw_nv12 cfg font buf (bufShift buf split)
                enc.width enc.height enc.hor_stride enc.hor_stride
              bufJoin split r.1 r.2
            | none => buf
          else buf
        if ¬ v.put_ok then (-1, enc, dest, buf)
        else if ¬ v.get_ok then (-1, enc, dest, buf)
        else
          match v.packet with
          | none => (-1, enc, dest, buf)
          | some bytes =>
            if bytes.length > 0 then
              let dest := us_frame_set_data dest bytes
              let dest := { dest with key := true, gop := 0 }
              let dest := us_frame_encoding_end dest te
              (0, enc, dest, buf)
            else (-1, enc, dest, buf)

/-! ## Blocking compositor (blocking.c) -/

/-- `US_BLOCKING_MAX_BG_SIZE = 3840 * 2160 * 3 / 2` (max 4K NV12). -/
def US_BLOCKING_MAX_BG_SIZE : Nat := 3840 * 2160 * 3 / 2

/-- One column step of `_rgb24_to_nv12` for row `py`: convert the pixel at
`(px, py)` and write its Y byte (and, on even coordinates, its UV pair). -/
def rgb24_col_body (rgb : Buf) (width height py : Nat) (px : Nat) (b : Buf) : Buf :=
  let rgb_idx := (py * width + px) * 3
  let r := rgb rgb_idx
  let g := rgb (rgb_idx + 1)
  let bl := rgb (rgb_idx + 2)
  let yv : Int :=
    Int.fdiv (66 * (r : Int) + 129 * (g : Int) + 25 * (bl : Int) + 128) 256 + 16
  let b1 := wr b (py * width + px) (c_clamp 16 235 yv)
  if px % 2 = 0 ∧ py % 2 = 0 then
    let u : Int :=
      Int.fdiv (-38 * (r : Int) - 74 * (g : Int) + 112 * (bl : Int) + 128) 256 + 128
    let v : Int :=
      Int.fdiv (112 * (r : Int) - 94 * (g : Int) - 18 * (bl : Int) + 128) 256 + 128
    let uv_idx := py / 2 * width + px
    wr (wr b1 (width * height + uv_idx) (c_clamp 16 240 u))
      (width * height + uv_idx + 1) (c_clamp 16 240 v)
  else b1

/-- blocking.c `_rgb24_to_nv12`: per-pixel BT.601 limited-range conversion of
a packed RGB24 image into NV12 (UV written once per 2x2 block at even
coordinates), in place over the preallocated background buffer. -/
def us_rgb24_to_nv12 (rgb : Buf) (width height : Nat) (nv12 : Buf) : Buf :=
  iterGo (fun py b => iterGo (rgb24_col_body rgb width height py) 0 width b)
    0 height nv12

/-- The set of offsets written by `rgb24_col_body rgb width height py px`. -/
def rgb24_touch (width A py px j : Nat) : Prop :=
  j = py * width + px ∨
    (px % 2 = 0 ∧ py % 2 = 0 ∧
      (j = A + py / 2 * width + px ∨ j = A + py / 2 * width + px + 1))

/-- `us_blocking_config_s` as used by blocking.c. -/
structure BlockingConfig where
  enabled : Bool
  background : Buf
  bg_width : Nat
  bg_height : Nat
  bg_valid : Bool
  preview_x : Int
  preview_y : Int
  preview_w : Nat
  preview_h : Nat
  preview_enabled : Bool
  text_vocab : List Nat
  text_stats : List Nat
  text_vocab_scale : Nat
  text_stats_scale : Nat
  text_y : Nat
  text_u : Nat
  text_v : Nat
  bg_box_y : Nat
  bg_box_u : Nat
  bg_box_v : Nat
  bg_box_alpha : Nat

/-- `us_blocking_s`: config plus the dirty flag and the atomic
`enabled_fast` mirror. -/
structure BlockingState where
  config : BlockingConfig
  dirty : Bool
  enabled_fast : Bool

/-- blocking.c `us_blocking_init`: calloc-zeroed state with the listed
defaults (the background slot is preallocated and zero-filled). -/
def us_blocking_default : BlockingState where
  config :=
    { enabled := false
      background := fun _ => 0
      bg_width := 0
      bg_height := 0
      bg_valid := false
      preview_x := 0
      preview_y := 0
      preview_w := 0
      preview_h := 0
      preview_enabled := false
      text_vocab := []
      text_stats := []
      text_vocab_scale := 10
      text_stats_scale := 4
      text_y := 235
      text_u := 128
      text_v := 128
      bg_box_y := 16
      bg_box_u := 128
      bg_box_v := 128
      bg_box_alpha := 180 }
  dirty := false
  enabled_fast := false

/-- blocking.c `us_blocking_enable`: set `config.enabled` under the mutex,
then release-store the same value into `enabled_fast`. -/
def us_blocking_enable (enabled : Bool) (s : BlockingState) : BlockingState :=
  { s with
    config := { s.config with enabled := enabled }
    dirty := true
    enabled_fast := enabled }

/-- blocking.c `us_blocking_clear`: store `false` into `enabled_fast` first,
then clear the mutable configuration. -/
def us_blocking_clear (s : BlockingState) : BlockingState :=
  { s with
    enabled_fast := false
    config := { s.config with
      enabled := false
      bg_valid := false
      preview_enabled := false
      text_vocab := []
      text_stats := [] }
    dirty := true }

/-- blocking.c `us_blocking_set_preview`. -/
def us_blocking_set_preview (x y : Int) (w h : Nat) (enabled : Bool)
    (s : BlockingState) : BlockingState :=
  { s with
    config := { s.config with
      preview_x := x
      preview_y := y
      preview_w := w
      preview_h := h
      preview_enabled := enabled }
    dirty := true }

/-- blocking.c `us_blocking_set_text_vocab` (`strncpy` truncates to the
buffer size minus the terminator). -/
def us_blocking_set_text_vocab (text : List Nat) (s : BlockingState) : BlockingState :=
  { s with
    config := { s.config with text_vocab := text.take 1023 }
    dirty := true }

/-- blocking.c `us_blocking_set_text_stats`. -/
def us_blocking_set_text_stats (text : List Nat) (s : BlockingState) : BlockingState :=
  { s with
    config := { s.config with text_stats := text.take 511 }
    dirty := true }

/-- blocking.c `us_blocking_set_text_vocab_scale` (clamped to `[1, 15]`). -/
def us_blocking_set_text_vocab_scale (scale : Nat) (s : BlockingState) : BlockingState :=
  let scale := if scale < 1 then 1 else scale
  let scale := if scale > 15 then 15 else scale
  { s with
    config := { s.config with text_vocab_scale := scale }
    dirty := true }

/-- blocking.c `us_blocking_set_text_stats_scale` (clamped to `[1, 10]`). -/
def us_blocking_set_text_stats_scale (scale : Nat) (s : BlockingState) : BlockingState :=
  let scale := if scale < 1 then 1 else scale
  let scale := if scale > 10 then 10 else scale
  { s with
    config := { s.config with text_stats_scale := scale }
    dirty := true }

/-- blocking.c `us_blocking_set_text_color`. -/
def us_blocking_set_text_color (y u v : Nat) (s : BlockingState) : BlockingState :=
  { s with
    config := { s.config with text_y := y, text_u := u, text_v := v }
    dirty := true }

/-- blocking.c `us_blocking_set_box_color`. -/
def us_blocking_set_box_color (y u v alpha : Nat) (s : BlockingState) : BlockingState :=
  { s with
    config := { s.config with
      bg_box_y := y
      bg_box_u := u
      bg_box_v := v
      bg_box_alpha := alpha }
    dirty := true }

/-- The result of a successful libjpeg decode of the uploaded background:
output dimensions and the RGB24 scanline bytes. -/
structure JpegDecodeResult where
  width : Nat
  height : Nat
  rgb : Buf

/-- blocking.c `us_blocking_set_background_jpeg`.  libjpeg and malloc are
oracles: `decode = none` covers every decode failure (the `setjmp` error
path, which can fire at any point before the commit and leaves the stored
state untouched), and the two allocation flags cover the temporary RGB and
scanline buffers.  Only the full success path commits, under the mutex. -/
def us_blocking_set_background_jpeg (s : BlockingState) (jpeg_size : Nat)
    (decode : Option JpegDecodeResult) (rgb_alloc_ok scanline_alloc_ok : Bool) :
    Int × BlockingState :=
  if jpeg_size = 0 then (-1, s)
  else
    match decode with
    | none => (-1, s)
    | some d =>
      if d.width * d.height * 3 / 2 > US_BLOCKING_MAX_BG_SIZE then (-1, s)
      else if ¬ rgb_alloc_ok then (-1, s)
      else if ¬ scanline_alloc_ok then (-1, s)
      else
        (0, { s with
          config := { s.config with
            background := us_rgb24_to_nv12 d.rgb d.width d.height s.config.background
            bg_width := d.width
            bg_height := d.height
            bg_valid := true }
          dirty := true })

/-- States reachable through the public blocking-state operations. -/
inductive BlockingReach : BlockingState → Prop
  | init : BlockingReach us_blocking_default
  | enable (b : Bool) {s} : BlockingReach s → BlockingReach (us_blocking_enable b s)
  | clear {s} : BlockingReach s → BlockingReach (us_blocking_clear s)
  | set_preview (x y : Int) (w h : Nat) (e : Bool) {s} :
      BlockingReach s → BlockingReach (us_blocking_set_preview x y w h e s)
  | set_text_vocab (t : List Nat) {s} :
      BlockingReach s → BlockingReach (us_blocking_set_text_vocab t s)
  | set_text_stats (t : List Nat) {s} :
      BlockingReach s → BlockingReach (us_blocking_set_text_stats t s)
  | set_text_vocab_scale (k : Nat) {s} :
      BlockingReach s → BlockingReach (us_blocking_set_text_vocab_scale k s)
  | set_text_stats_scale (k : Nat) {s} :
      BlockingReach s → BlockingReach (us_blocking_set_text_stats_scale k s)
  | set_text_color (y u v : Nat) {s} :
      BlockingReach s → BlockingReach (us_blocking_set_text_color y u v s)
  | set_box_color (y u v a : Nat) {s} :
      BlockingReach s → BlockingReach (us_blocking_set_box_color y u v a s)
  | set_background (js : Nat) (d : Option JpegDecodeResult) (a1 a2 : Bool) {s} :
      BlockingReach s →
      BlockingReach (us_blocking_set_background_jpeg s js d a1 a2).2

/-- blocking.c `us_blocking_composite_nv12`, preview placement (the code
after the float proportional pre-scaling branch, which only runs when the
preview is larger than the destination): cap to the destination, round the
dimensions down to even, resolve negative positions as anchors from the
right/bottom edge, clamp into the frame, and round the position down to
even.  Returns `(x, y, w, h)`. -/
def us_blocking_preview_rect (dst_width dst_height : Nat)
    (preview_x preview_y : Int) (preview_w preview_h : Nat) :
    Int × Int × Nat × Nat :=
  let pw := if preview_w > dst_width then dst_width else preview_w
  let ph := if preview_h > dst_height then dst_height else preview_h
  let pw := clearBit0 pw
  let ph := clearBit0 ph
  let px := if preview_x < 0 then (dst_width : Int) + preview_x - (pw : Int) else preview_x
  let py := if preview_y < 0 then (dst_height : Int) + preview_y - (ph : Int) else preview_y
  let px := if px < 0 then 0 else px
  let py := if py < 0 then 0 else py
  let px := if px + (pw : Int) > (dst_width : Int) then (dst_width : Int) - (pw : Int) else px
  let py := if py + (ph : Int) > (dst_height : Int) then (dst_height : Int) - (ph : Int) else py
  (evenFloorInt px, evenFloorInt py, pw, ph)

/-- The claim's description of the preview placement along one axis:
negative positions anchor from the far edge (`dst + pos - dim`), then the
position is clamped into `[0, dst - dim]` and rounded down to even. -/
def preview_origin_spec (dst : Nat) (pos : Int) (dim : Nat) : Int :=
  let anchored := if pos < 0 then (dst : Int) + pos - (dim : Int) else pos
  evenFloorInt (min (max anchored 0) ((dst : Int) - (dim : Int)))

/-! ## Spec-side formulas for the BT.601 conversion (claim C7) -/

/-- The claim's Y formula: `(66R + 129G + 25B + 128)/256 + 16` clamped to
`[16, 235]` (the dividend is nonnegative, so `/` is ordinary division). -/
def rgb_to_nv12_y_spec (r g b : Nat) : Nat :=
  min 235 (max 16 ((66 * r + 129 * g + 25 * b + 128) / 256 + 16))

/-- The claim's U formula: `(−38R − 74G + 112B + 128)/256 + 128` clamped to
`[16, 240]`, with the C arithmetic shift reading of `/` (floor). -/
def rgb_to_nv12_u_spec (r g b : Nat) : Nat :=
  (min 240 (max 16 (Int.fdiv (-38 * (r : Int) - 74 * (g : Int) + 112 * (b : Int) + 128) 256
    + 128))).toNat

/-- The claim's V formula: `(112R − 94G − 18B + 128)/256 + 128` clamped to
`[16, 240]`. -/
def rgb_to_nv12_v_spec (r g b : Nat) : Nat :=
  (min 240 (max 16 (Int.fdiv (112 * (r : Int) - 94 * (g : Int) - 18 * (b : Int) + 128) 256
    + 128))).toNat

/-- Innermost write of `_draw_char_nv12`: scaled sub-pixel `(sx, sy)` of
glyph cell `(cx, cy)` lands in-frame on Y offset `j`. -/
def char_touch_sx (fw fh x y ys scale cy cx sy sx j : Nat) : Prop :=
  ¬(x + cx * scale + sx ≥ fw ∨ y + cy * scale + sy ≥ fh) ∧
  j = (y + cy * scale + sy) * ys + (x + cx * scale + sx)

/-- Some sub-column of sub-row `sy` lands on `j`. -/
def char_touch_sy (fw fh x y ys scale cy cx sy j : Nat) : Prop :=
  ∃ sx, sx < scale ∧ char_touch_sx fw fh x y ys scale cy cx sy sx j

/-- Glyph cell `(cx, cy)` is set and some of its scaled pixels land on `j`. -/
def char_touch_cx (g : Nat → Nat) (fw fh x y ys scale cy cx j : Nat) : Prop :=
  (g cy >>> cx) % 2 = 1 ∧ ∃ sy, sy < scale ∧ char_touch_sy fw fh x y ys scale cy cx sy j

/-- Some cell of glyph row `cy` writes `j`. -/
def char_touch_cy (g : Nat → Nat) (fw fh x y ys scale cy j : Nat) : Prop :=
  ∃ cx, cx < 8 ∧ char_touch_cx g fw fh x y ys scale cy cx j

/-! # Part 2: theorems -/

theorem wr_self (b : Buf) (i : Nat) : wr b i (b i) = b := by
  funext j
  simp only [wr]
  split <;> simp_all

theorem wr_ne (b : Buf) (i v j : Nat) (h : j ≠ i) : wr b i v j = b j := by
  simp [wr, h]

theorem wr_eq (b : Buf) (i v : Nat) : wr b i v i = v := by
  simp [wr]

/-! ### Generic loop lemmas

`touch d j` says iteration `d` of the loop writes offset `j`;
`val j v` is the value it leaves there when the pre-state held `v` there.
These lemmas are the workhorses used to read back the pixel loops. -/

theorem iterGo_frame {f : Nat → Buf → Buf} {touch : Nat → Nat → Prop} :
    ∀ (n i : Nat) (b : Buf) (j : Nat),
      (∀ d st, i ≤ d → d < i + n → ¬ touch d j → f d st j = st j) →
      (∀ d, i ≤ d → d < i + n → ¬ touch d j) → iterGo f i n b j = b j := by
  intro n
  induction n with
  | zero => intro i b j _ _; rfl
  | succ m ih =>
    intro i b j hA hout
    have h1 : ¬ touch i j := hout i le_rfl (by omega)
    calc iterGo f (i + 1) m (f i b) j
        = f i b j :=
          ih (i + 1) (f i b) j (fun d st hd1 hd2 => hA d st (by omega) (by omega))
            (fun d hd1 hd2 => hout d (by omega) (by omega))
      _ = b j := hA i b le_rfl (by omega) h1

theorem iterGo_val {f : Nat → Buf → Buf} {touch : Nat → Nat → Prop}
    {val : Nat → Nat} :
    ∀ (n i : Nat) (b : Buf) (j d0 : Nat),
      (∀ d st, i ≤ d → d < i + n → ¬ touch d j → f d st j = st j) →
      (∀ d st, i ≤ d → d < i + n → touch d j → f d st j = val (st j)) →
      i ≤ d0 → d0 < i + n → touch d0 j →
      (∀ d, i ≤ d → d < i + n → d ≠ d0 → ¬ touch d j) →
      iterGo f i n b j = val (b j) := by
  intro n
  induction n with
  | zero => intro i b j d0 _ _ h1 h2; omega
  | succ m ih =>
    intro i b j d0 hA hB h1 h2 hT hothers
    by_cases hd : d0 = i
    · subst hd
      have hrest : iterGo f (d0 + 1) m (f d0 b) j = f d0 b j :=
        iterGo_frame m (d0 + 1) (f d0 b) j
          (fun d st hd1 hd2 => hA d st (by omega) (by omega))
          (fun d hd1 hd2 => hothers d (by omega) (by omega) (by omega))
      rw [show iterGo f d0 (m + 1) b = iterGo f (d0 + 1) m (f d0 b) from rfl, hrest,
        hB d0 b le_rfl (by omega) hT]
    · have hnt : ¬ touch i j := hothers i le_rfl (by omega) (fun h => hd h.symm)
      rw [show iterGo f i (m + 1) b = iterGo f (i + 1) m (f i b) from rfl,
        ih (i + 1) (f i b) j d0
          (fun d st hd1 hd2 => hA d st (by omega) (by omega))
          (fun d st hd1 hd2 => hB d st (by omega) (by omega))
          (by omega) (by omega) hT
          (fun d hd1 hd2 hne => hothers d (by omega) (by omega) hne),
        hA i b le_rfl (by omega) hnt]

/-- Invariant form for write-only loops: once offset `j` holds the value
`c`, further iterations keep it there. -/
theorem iterGo_const_inv {f : Nat → Buf → Buf} {touch : Nat → Nat → Prop} {c : Nat} :
    ∀ (n i : Nat) (b : Buf) (j : Nat),
      (∀ d st, i ≤ d → d < i + n → ¬ touch d j → f d st j = st j) →
      (∀ d st, i ≤ d → d < i + n → touch d j → f d st j = c) →
      b j = c → iterGo f i n b j = c := by
  intro n
  induction n with
  | zero => intro i b j _ _ h; exact h
  | succ m ih =>
    intro i b j hA hB h
    refine ih (i + 1) (f i b) j
      (fun d st hd1 hd2 => hA d st (by omega) (by omega))
      (fun d st hd1 hd2 => hB d st (by omega) (by omega)) ?_
    by_cases ht : touch i j
    · exact hB i b le_rfl (by omega) ht
    · rw [hA i b le_rfl (by omega) ht]; exact h

/-- Hit form for write-only loops: if some iteration in range writes `j`,
the final value at `j` is `c`. -/
theorem iterGo_const_hit {f : Nat → Buf → Buf} {touch : Nat → Nat → Prop} {c : Nat} :
    ∀ (n i : Nat) (b : Buf) (j d0 : Nat),
      (∀ d st, i ≤ d → d < i + n → ¬ touch d j → f d st j = st j) →
      (∀ d st, i ≤ d → d < i + n → touch d j → f d st j = c) →
      i ≤ d0 → d0 < i + n → touch d0 j → iterGo f i n b j = c := by
  intro n
  induction n with
  | zero => intro i b j d0 _ _ h1 h2; omega
  | succ m ih =>
    intro i b j d0 hA hB h1 h2 hT
    by_cases hd : d0 = i
    · subst hd
      exact iterGo_const_inv m (d0 + 1) (f d0 b) j
        (fun d st hd1 hd2 => hA d st (by omega) (by omega))
        (fun d st hd1 hd2 => hB d st (by omega) (by omega))
        (hB d0 b le_rfl (by omega) hT)
    · exact ih (i + 1) (f i b) j d0
        (fun d st hd1 hd2 => hA d st (by omega) (by omega))
        (fun d st hd1 hd2 => hB d st (by omega) (by omega))
        (by omega) (by omega) hT

/-- A loop whose body acts componentwise on a pair of buffers factors into
two independent loops. -/
theorem iterGo_pair {f : Nat → Buf × Buf → Buf × Buf}
    {fY fUV : Nat → Buf → Buf}
    (hf : ∀ d p, f d p = (fY d p.1, fUV d p.2)) :
    ∀ (n i : Nat) (p : Buf × Buf),
      iterGo f i n p = (iterGo fY i n p.1, iterGo fUV i n p.2) := by
  intro n
  induction n with
  | zero => intro i p; rfl
  | succ m ih =>
    intro i p
    show iterGo f (i + 1) m (f i p) = _
    rw [ih (i + 1) (f i p), hf i p]
    rfl

/-- Row/column offsets are injective when the column is below the stride. -/
theorem row_off_inj {stride r1 c1 r2 c2 : Nat} (h1 : c1 < stride) (h2 : c2 < stride)
    (h : r1 * stride + c1 = r2 * stride + c2) : r1 = r2 ∧ c1 = c2 := by
  have hs : 0 < stride := by omega
  have e1 : (r1 * stride + c1) / stride = r1 := by
    rw [Nat.mul_comm r1 stride, Nat.mul_add_div hs, Nat.div_eq_of_lt h1]
    omega
  have e2 : (r2 * stride + c2) / stride = r2 := by
    rw [Nat.mul_comm r2 stride, Nat.mul_add_div hs, Nat.div_eq_of_lt h2]
    omega
  have hr : r1 = r2 := by rw [← e1, ← e2, h]
  subst hr
  exact ⟨rfl, by omega⟩

/-- C1: for every source frame and policy the resolver returns exactly the
spec's table value, never exceeds the input dimensions, and reports
`needs_downscale` exactly when the target differs from the input. -/
theorem C1_resolve_target_matches_table (scale : ScalePolicy) (src : FrameGeom) :
    us_get_target_resolution scale src = resolve_target_spec_table scale src ∧
    (us_get_target_resolution scale src).1 ≤ src.width ∧
    (us_get_target_resolution scale src).2 ≤ src.height ∧
    (us_needs_downscale scale src = true ↔
      us_get_target_resolution scale src ≠ (src.width, src.height)) := by
  cases scale <;>
    refine ⟨?_, ?_, ?_, ?_⟩ <;>
      simp only [us_get_target_resolution, resolve_target_spec_table, us_needs_downscale,
        decide_eq_true_eq, ne_eq, Prod.mk.injEq, Prod.ext_iff, Nat.min_def, gt_iff_lt,
        ge_iff_le, not_and, not_or] <;>
      split_ifs <;> first | rfl | omega

/-- C8: in the blocking compositor, for previews already fitting the
destination (so the float pre-scaling branch is skipped) with even
dimensions, a negative `preview.x` is interpreted as an anchor from the
right edge (`dst_w + x - w`, likewise for `y`), the position is clamped
into `[0, dst - preview]` and rounded down to even; the concrete preview
`{x=-40, y=-40, w=384, h=216}` on a 1920x1080 destination lands at
`(1496, 824)`. -/
theorem C8_preview_anchor (dw dh : Nat) (px py : Int) (pw ph : Nat)
    (hw : pw ≤ dw) (hh : ph ≤ dh) (hwe : pw % 2 = 0) (hhe : ph % 2 = 0) :
    us_blocking_preview_rect dw dh px py pw ph =
      (preview_origin_spec dw px pw, preview_origin_spec dh py ph, pw, ph) ∧
    us_blocking_preview_rect 1920 1080 (-40) (-40) 384 216 = (1496, 824, 384, 216) := by
  constructor
  · simp only [us_blocking_preview_rect, preview_origin_spec, clearBit0, evenFloorInt,
      Prod.ext_iff, Prod.mk.injEq]
    split_ifs <;> refine ⟨by omega, by omega, by omega, by omega⟩
  · decide

/-- C8 witness: the theorem applied at the concrete preview geometry. -/
theorem C8_preview_anchor_witness :
    us_blocking_preview_rect 1920 1080 (-40) (-40) 384 216 =
      (preview_origin_spec 1920 (-40) 384, preview_origin_spec 1080 (-40) 216, 384, 216) ∧
    us_blocking_preview_rect 1920 1080 (-40) (-40) 384 216 = (1496, 824, 384, 216) :=
  C8_preview_anchor 1920 1080 (-40) (-40) 384 216
    (by decide) (by decide) (by decide) (by decide)

/-- C9: the lock-free `enabled_fast` flag equals the mutex-protected
`config.enabled` in the initial state and after every public
blocking-state operation. -/
theorem C9_enabled_fast_mirrors_enabled (s : BlockingState) (h : BlockingReach s) :
    s.enabled_fast = s.config.enabled := by
  induction h with
  | init => rfl
  | enable b _ _ => rfl
  | clear _ _ => rfl
  | set_preview x y w hgt e _ ih => simpa [us_blocking_set_preview] using ih
  | set_text_vocab t _ ih => simpa [us_blocking_set_text_vocab] using ih
  | set_text_stats t _ ih => simpa [us_blocking_set_text_stats] using ih
  | set_text_vocab_scale k _ ih => simpa [us_blocking_set_text_vocab_scale] using ih
  | set_text_stats_scale k _ ih => simpa [us_blocking_set_text_stats_scale] using ih
  | set_text_color y u v _ ih => simpa [us_blocking_set_text_color] using ih
  | set_box_color y u v a _ ih => simpa [us_blocking_set_box_color] using ih
  | set_background js d a1 a2 _ ih =>
    rcases d with _ | r <;>
      simp only [us_blocking_set_background_jpeg] <;>
      split_ifs <;> simpa using ih

/-- C9 witness: the invariant instantiated at the initial state. -/
theorem C9_enabled_fast_mirrors_enabled_witness :
    us_blocking_default.enabled_fast = us_blocking_default.config.enabled :=
  C9_enabled_fast_mirrors_enabled us_blocking_default BlockingReach.init

/-- C4: background upload is atomic: decode failure, an over-large decoded
image, or a failed temporary allocation returns `-1` with the whole stored
state (background bytes, dimensions, validity) untouched; only full success
returns `0` and commits the converted background with `bg_valid = true`. -/
theorem C4_background_upload_atomic (s : BlockingState) (js : Nat)
    (d : Option JpegDecodeResult) (a1 a2 : Bool) :
    (js = 0 ∨ d = none ∨
        (∃ r, d = some r ∧ r.width * r.height * 3 / 2 > US_BLOCKING_MAX_BG_SIZE) ∨
        a1 = false ∨ a2 = false →
      us_blocking_set_background_jpeg s js d a1 a2 = (-1, s)) ∧
    (∀ r, js ≠ 0 → d = some r →
      r.width * r.height * 3 / 2 ≤ US_BLOCKING_MAX_BG_SIZE → a1 = true → a2 = true →
      us_blocking_set_background_jpeg s js d a1 a2 =
        (0, { s with
          config := { s.config with
            background := us_rgb24_to_nv12 r.rgb r.width r.height s.config.background
            bg_width := r.width
            bg_height := r.height
            bg_valid := true }
          dirty := true })) := by
  constructor
  · intro hfail
    rcases d with _ | r
    · simp only [us_blocking_set_background_jpeg]
      split_ifs <;> rfl
    · simp only [us_blocking_set_background_jpeg]
      rcases hfail with h0 | hnone | ⟨r2, hr2, hbig⟩ | ha1 | ha2
      · split_ifs <;> first | rfl | omega
      · exact absurd hnone (by simp)
      · have heq : r2 = r := by injection hr2 with h; exact h.symm
        subst heq
        split_ifs <;> first | rfl | omega
      · subst ha1
        split_ifs <;> first | rfl | simp_all
      · subst ha2
        split_ifs <;> first | rfl | simp_all
  · intro r h0 hd hsize ha1 ha2
    subst hd ha1 ha2
    simp only [us_blocking_set_background_jpeg]
    split_ifs <;> first | rfl | omega | simp_all

/-- C4 witness: a failing upload (decode error) and a succeeding upload,
both at concrete inputs. -/
theorem C4_background_upload_atomic_witness :
    (1 = 0 ∨ (none : Option JpegDecodeResult) = none ∨
        (∃ r, (none : Option JpegDecodeResult) = some r ∧
          r.width * r.height * 3 / 2 > US_BLOCKING_MAX_BG_SIZE) ∨
        true = false ∨ true = false →
      us_blocking_set_background_jpeg us_blocking_default 1 none true true =
        (-1, us_blocking_default)) ∧
    (∀ r, 1 ≠ 0 → (none : Option JpegDecodeResult) = some r →
      r.width * r.height * 3 / 2 ≤ US_BLOCKING_MAX_BG_SIZE → true = true → true = true →
      us_blocking_set_background_jpeg us_blocking_default 1 none true true =
        (0, { us_blocking_default with
          config := { us_blocking_default.config with
            background := us_rgb24_to_nv12 r.rgb r.width r.height
              us_blocking_default.config.background
            bg_width := r.width
            bg_height := r.height
            bg_valid := true }
          dirty := true })) :=
  C4_background_upload_atomic us_blocking_default 1 none true true

/-- Pixels lie inside the Y plane: `py * W + px < W * H`. -/
theorem cell_lt {W H px py : Nat} (hx : px < W) (hy : py < H) :
    py * W + px < W * H := by
  have h2 : (py + 1) * W ≤ H * W := Nat.mul_le_mul_right W hy
  have h3 : (py + 1) * W = py * W + W := by ring
  have h4 : H * W = W * H := Nat.mul_comm H W
  omega

/-- A conversion step leaves every offset it does not touch unchanged. -/
theorem rgb24_col_body_untouched (rgb : Buf) (W H py px : Nat) (st : Buf) (j : Nat)
    (h : ¬ rgb24_touch W (W * H) py px j) :
    rgb24_col_body rgb W H py px st j = st j := by
  simp only [rgb24_touch] at h
  push_neg at h
  obtain ⟨hy, huv⟩ := h
  simp only [rgb24_col_body]
  by_cases hc : px % 2 = 0 ∧ py % 2 = 0
  · obtain ⟨hu, hv⟩ := huv hc.1 hc.2
    rw [if_pos hc]
    rw [wr_ne _ _ _ _ (by omega), wr_ne _ _ _ _ (by omega), wr_ne _ _ _ _ (by omega)]
  · rw [if_neg hc]
    rw [wr_ne _ _ _ _ (by omega)]

/-- A conversion step writes the clamped BT.601 Y value at its Y offset. -/
theorem rgb24_col_body_at_y (rgb : Buf) (W H py px : Nat) (st : Buf)
    (hx : px < W) (hy : py < H) :
    rgb24_col_body rgb W H py px st (py * W + px) =
      c_clamp 16 235
        (Int.fdiv (66 * (rgb ((py * W + px) * 3) : Int) +
          129 * (rgb ((py * W + px) * 3 + 1) : Int) +
          25 * (rgb ((py * W + px) * 3 + 2) : Int) + 128) 256 + 16) := by
  have hlt : py * W + px < W * H := cell_lt hx hy
  simp only [rgb24_col_body]
  by_cases hc : px % 2 = 0 ∧ py % 2 = 0
  · rw [if_pos hc, wr_ne _ _ _ _ (by omega), wr_ne _ _ _ _ (by omega), wr_eq]
  · rw [if_neg hc, wr_eq]

/-- A conversion step writes the clamped BT.601 U value at its U offset. -/
theorem rgb24_col_body_at_u (rgb : Buf) (W H py px : Nat) (st : Buf)
    (hpx : px % 2 = 0) (hpy : py % 2 = 0) :
    rgb24_col_body rgb W H py px st (W * H + py / 2 * W + px) =
      c_clamp 16 240
        (Int.fdiv (-38 * (rgb ((py * W + px) * 3) : Int) -
          74 * (rgb ((py * W + px) * 3 + 1) : Int) +
          112 * (rgb ((py * W + px) * 3 + 2) : Int) + 128) 256 + 128) := by
  simp only [rgb24_col_body]
  rw [if_pos ⟨hpx, hpy⟩]
  have e : W * H + py / 2 * W + px = W * H + (py / 2 * W + px) := by omega
  rw [e, wr_ne _ _ _ _ (by omega), wr_eq]

/-- A conversion step writes the clamped BT.601 V value right after its U
offset. -/
theorem rgb24_col_body_at_v (rgb : Buf) (W H py px : Nat) (st : Buf)
    (hpx : px % 2 = 0) (hpy : py % 2 = 0) :
    rgb24_col_body rgb W H py px st (W * H + py / 2 * W + px + 1) =
      c_clamp 16 240
        (Int.fdiv (112 * (rgb ((py * W + px) * 3) : Int) -
          94 * (rgb ((py * W + px) * 3 + 1) : Int) -
          18 * (rgb ((py * W + px) * 3 + 2) : Int) + 128) 256 + 128) := by
  simp only [rgb24_col_body]
  rw [if_pos ⟨hpx, hpy⟩]
  have e : W * H + py / 2 * W + px + 1 = W * H + (py / 2 * W + px) + 1 := by omega
  rw [e, wr_eq]

/-- Reading the Y plane of the converted background: pixel `(px, py)` holds
the code's clamped Y value of the RGB bytes at that pixel. -/
theorem us_rgb24_to_nv12_read_y (rgb : Buf) (W H : Nat) (nv12 : Buf) (px py : Nat)
    (hx : px < W) (hy : py < H) :
    us_rgb24_to_nv12 rgb W H nv12 (py * W + px) =
      c_clamp 16 235
        (Int.fdiv (66 * (rgb ((py * W + px) * 3) : Int) +
          129 * (rgb ((py * W + px) * 3 + 1) : Int) +
          25 * (rgb ((py * W + px) * 3 + 2) : Int) + 128) 256 + 16) := by
  unfold us_rgb24_to_nv12
  refine @iterGo_val _ (fun dy j => ∃ p, p < W ∧ rgb24_touch W (W * H) dy p j)
    (fun _ => c_clamp 16 235
      (Int.fdiv (66 * (rgb ((py * W + px) * 3) : Int) +
        129 * (rgb ((py * W + px) * 3 + 1) : Int) +
        25 * (rgb ((py * W + px) * 3 + 2) : Int) + 128) 256 + 16))
    H 0 nv12 (py * W + px) py ?_ ?_ (by omega) (by omega)
    ⟨px, hx, Or.inl rfl⟩ ?_
  · intro dy st hd1 hd2 hnt
    refine @iterGo_frame _ (rgb24_touch W (W * H) dy) W 0 st (py * W + px) ?_ ?_
    · intro p st2 hp1 hp2 hnt2
      exact rgb24_col_body_untouched rgb W H dy p st2 _ hnt2
    · intro p hp1 hp2 hin
      exact hnt ⟨p, by omega, hin⟩
  · intro dy st hd1 hd2 htc
    obtain ⟨p, hpW, hin⟩ := htc
    have hdy : dy = py := by
      rcases hin with h | ⟨he1, he2, h | h⟩
      · exact (row_off_inj hx hpW h).1.symm
      · exfalso; have hlt := cell_lt hx hy; omega
      · exfalso; have hlt := cell_lt hx hy; omega
    subst hdy
    clear hd1 hd2
    refine @iterGo_const_hit _ (rgb24_touch W (W * H) dy) _ W 0 st (dy * W + px) px ?_ ?_
      (by omega) (by omega) (Or.inl rfl)
    · intro q st2 hq1 hq2 hnt2
      exact rgb24_col_body_untouched rgb W H dy q st2 _ hnt2
    · intro q st2 hq1 hq2 htc2
      have hq : q = px := by
        rcases htc2 with h | ⟨he1, he2, h | h⟩
        · omega
        · exfalso; have hlt := cell_lt hx hy; omega
        · exfalso; have hlt := cell_lt hx hy; omega
      subst hq
      exact rgb24_col_body_at_y rgb W H dy q st2 hx hy
  · intro dy hd1 hd2 hne
    rintro ⟨p, hpW, hin⟩
    rcases hin with h | ⟨he1, he2, h | h⟩
    · exact hne ((row_off_inj hx hpW h).1.symm)
    · have hlt := cell_lt hx hy; omega
    · have hlt := cell_lt hx hy; omega

/-- Reading the U byte of the converted background at an even 2x2 block. -/
theorem us_rgb24_to_nv12_read_u (rgb : Buf) (W H : Nat) (nv12 : Buf) (px py : Nat)
    (hW : W % 2 = 0) (hx : px < W) (hy : py < H)
    (hpx : px % 2 = 0) (hpy : py % 2 = 0) :
    us_rgb24_to_nv12 rgb W H nv12 (W * H + py / 2 * W + px) =
      c_clamp 16 240
        (Int.fdiv (-38 * (rgb ((py * W + px) * 3) : Int) -
          74 * (rgb ((py * W + px) * 3 + 1) : Int) +
          112 * (rgb ((py * W + px) * 3 + 2) : Int) + 128) 256 + 128) := by
  unfold us_rgb24_to_nv12
  refine @iterGo_val _ (fun dy j => ∃ p, p < W ∧ rgb24_touch W (W * H) dy p j)
    (fun _ => c_clamp 16 240
      (Int.fdiv (-38 * (rgb ((py * W + px) * 3) : Int) -
        74 * (rgb ((py * W + px) * 3 + 1) : Int) +
        112 * (rgb ((py * W + px) * 3 + 2) : Int) + 128) 256 + 128))
    H 0 nv12 (W * H + py / 2 * W + px) py ?_ ?_ (by omega) (by omega)
    ⟨px, hx, Or.inr ⟨hpx, hpy, Or.inl rfl⟩⟩ ?_
  · intro dy st hd1 hd2 hnt
    refine @iterGo_frame _ (rgb24_touch W (W * H) dy) W 0 st _ ?_ ?_
    · intro p st2 hp1 hp2 hnt2
      exact rgb24_col_body_untouched rgb W H dy p st2 _ hnt2
    · intro p hp1 hp2 hin
      exact hnt ⟨p, by omega, hin⟩
  · intro dy st hd1 hd2 htc
    obtain ⟨p, hpW, hin⟩ := htc
    have hdy : dy = py := by
      rcases hin with h | ⟨he1, he2, h | h⟩
      · exfalso
        have hdH : dy < H := by omega
        have hlt := cell_lt hpW hdH
        omega
      · have h2 : py / 2 * W + px = dy / 2 * W + p := by omega
        have := row_off_inj hx hpW h2
        omega
      · have h2 : py / 2 * W + px = dy / 2 * W + (p + 1) := by omega
        have hp1W : p + 1 < W := by omega
        have := row_off_inj hx hp1W h2
        omega
    subst hdy
    refine @iterGo_const_hit _ (rgb24_touch W (W * H) dy) _ W 0 st _ px ?_ ?_
      (by omega) (by omega) (Or.inr ⟨hpx, hpy, Or.inl rfl⟩)
    · intro q st2 hq1 hq2 hnt2
      exact rgb24_col_body_untouched rgb W H dy q st2 _ hnt2
    · intro q st2 hq1 hq2 htc2
      have hq : q = px := by
        have hqW : q < W := by omega
        rcases htc2 with h | ⟨he1, he2, h | h⟩
        · exfalso; have hlt := cell_lt hqW hy; omega
        · omega
        · omega
      subst hq
      exact rgb24_col_body_at_u rgb W H dy q st2 hpx hpy
  · intro dy hd1 hd2 hne
    rintro ⟨p, hpW, hin⟩
    rcases hin with h | ⟨he1, he2, h | h⟩
    · have hdH : dy < H := by omega
      have hlt := cell_lt hpW hdH
      omega
    · have h2 : py / 2 * W + px = dy / 2 * W + p := by omega
      have := row_off_inj hx hpW h2
      omega
    · have h2 : py / 2 * W + px = dy / 2 * W + (p + 1) := by omega
      have hp1W : p + 1 < W := by omega
      have := row_off_inj hx hp1W h2
      omega

/-- Reading the V byte of the converted background at an even 2x2 block. -/
theorem us_rgb24_to_nv12_read_v (rgb : Buf) (W H : Nat) (nv12 : Buf) (px py : Nat)
    (hW : W % 2 = 0) (hx : px < W) (hy : py < H)
    (hpx : px % 2 = 0) (hpy : py % 2 = 0) :
    us_rgb24_to_nv12 rgb W H nv12 (W * H + py / 2 * W + px + 1) =
      c_clamp 16 240
        (Int.fdiv (112 * (rgb ((py * W + px) * 3) : Int) -
          94 * (rgb ((py * W + px) * 3 + 1) : Int) -
          18 * (rgb ((py * W + px) * 3 + 2) : Int) + 128) 256 + 128) := by
  unfold us_rgb24_to_nv12
  have hx1 : px + 1 < W := by omega
  refine @iterGo_val _ (fun dy j => ∃ p, p < W ∧ rgb24_touch W (W * H) dy p j)
    (fun _ => c_clamp 16 240
      (Int.fdiv (112 * (rgb ((py * W + px) * 3) : Int) -
        94 * (rgb ((py * W + px) * 3 + 1) : Int) -
        18 * (rgb ((py * W + px) * 3 + 2) : Int) + 128) 256 + 128))
    H 0 nv12 (W * H + py / 2 * W + px + 1) py ?_ ?_ (by omega) (by omega)
    ⟨px, hx, Or.inr ⟨hpx, hpy, Or.inr rfl⟩⟩ ?_
  · intro dy st hd1 hd2 hnt
    refine @iterGo_frame _ (rgb24_touch W (W * H) dy) W 0 st _ ?_ ?_
    · intro p st2 hp1 hp2 hnt2
      exact rgb24_col_body_untouched rgb W H dy p st2 _ hnt2
    · intro p hp1 hp2 hin
      exact hnt ⟨p, by omega, hin⟩
  · intro dy st hd1 hd2 htc
    obtain ⟨p, hpW, hin⟩ := htc
    have hdy : dy = py := by
      rcases hin with h | ⟨he1, he2, h | h⟩
      · exfalso
        have hdH : dy < H := by omega
        have hlt := cell_lt hpW hdH
        omega
      · have h2 : py / 2 * W + (px + 1) = dy / 2 * W + p := by omega
        have := row_off_inj hx1 hpW h2
        omega
      · have h2 : py / 2 * W + (px + 1) = dy / 2 * W + (p + 1) := by omega
        have hp1W : p + 1 < W := by omega
        have := row_off_inj hx1 hp1W h2
        omega
    subst hdy
    refine @iterGo_const_hit _ (rgb24_touch W (W * H) dy) _ W 0 st _ px ?_ ?_
      (by omega) (by omega) (Or.inr ⟨hpx, hpy, Or.inr rfl⟩)
    · intro q st2 hq1 hq2 hnt2
      exact rgb24_col_body_untouched rgb W H dy q st2 _ hnt2
    · intro q st2 hq1 hq2 htc2
      have hq : q = px := by
        have hqW : q < W := by omega
        rcases htc2 with h | ⟨he1, he2, h | h⟩
        · exfalso; have hlt := cell_lt hqW hy; omega
        · omega
        · omega
      subst hq
      exact rgb24_col_body_at_v rgb W H dy q st2 hpx hpy
  · intro dy hd1 hd2 hne
    rintro ⟨p, hpW, hin⟩
    rcases hin with h | ⟨he1, he2, h | h⟩
    · have hdH : dy < H := by omega
      have hlt := cell_lt hpW hdH
      omega
    · have h2 : py / 2 * W + (px + 1) = dy / 2 * W + p := by omega
      have := row_off_inj hx1 hpW h2
      omega
    · have h2 : py / 2 * W + (px + 1) = dy / 2 * W + (p + 1) := by omega
      have hp1W : p + 1 < W := by omega
      have := row_off_inj hx1 hp1W h2
      omega

/-- The code's Y clamp equals the claim's clamped formula. -/
theorem c_clamp_y_eq (r g b : Nat) :
    c_clamp 16 235 (Int.fdiv (66 * (r : Int) + 129 * (g : Int) + 25 * (b : Int) + 128) 256
      + 16) = rgb_to_nv12_y_spec r g b := by
  have hc : (66 * (r : Int) + 129 * (g : Int) + 25 * (b : Int) + 128) =
      ((66 * r + 129 * g + 25 * b + 128 : Nat) : Int) := by push_cast; ring
  rw [hc, Int.fdiv_eq_ediv _ (by norm_num)]
  simp only [c_clamp, rgb_to_nv12_y_spec]
  split_ifs <;> omega

/-- The code's U clamp equals the claim's clamped formula. -/
theorem c_clamp_u_eq (r g b : Nat) :
    c_clamp 16 240 (Int.fdiv (-38 * (r : Int) - 74 * (g : Int) + 112 * (b : Int) + 128) 256
      + 128) = rgb_to_nv12_u_spec r g b := by
  simp only [c_clamp, rgb_to_nv12_u_spec]
  split_ifs <;> omega

/-- The code's V clamp equals the claim's clamped formula. -/
theorem c_clamp_v_eq (r g b : Nat) :
    c_clamp 16 240 (Int.fdiv (112 * (r : Int) - 94 * (g : Int) - 18 * (b : Int) + 128) 256
      + 128) = rgb_to_nv12_v_spec r g b := by
  simp only [c_clamp, rgb_to_nv12_v_spec]
  split_ifs <;> omega

/-- The scalar conversion helper matches the claim's three formulas. -/
theorem us_overlay_rgb_to_yuv_spec_eq (r g b : Nat) :
    us_overlay_rgb_to_yuv r g b =
      (rgb_to_nv12_y_spec r g b, rgb_to_nv12_u_spec r g b, rgb_to_nv12_v_spec r g b) := by
  show (c_clamp 16 235 _, c_clamp 16 240 _, c_clamp 16 240 _) = _
  rw [c_clamp_y_eq, c_clamp_u_eq, c_clamp_v_eq]

/-- C7: the background RGB-to-NV12 conversion produces the claim's clamped
BT.601 Y value at every pixel, and the claim's clamped U and V values at
every even 2x2 block; the scalar helper `us_overlay_rgb_to_yuv` computes
the same three formulas, and pure red maps to `(82, 90, 240)` (the spec's
"Y about 81, U about 90, V about 240"). -/
theorem C7_rgb_to_nv12_bt601 (rgb : Buf) (W H : Nat) (nv12 : Buf) (px py : Nat)
    (hW : W % 2 = 0) (hx : px < W) (hy : py < H) :
    (∀ r g b : Nat, us_overlay_rgb_to_yuv r g b =
      (rgb_to_nv12_y_spec r g b, rgb_to_nv12_u_spec r g b, rgb_to_nv12_v_spec r g b)) ∧
    us_rgb24_to_nv12 rgb W H nv12 (py * W + px) =
      rgb_to_nv12_y_spec (rgb ((py * W + px) * 3)) (rgb ((py * W + px) * 3 + 1))
        (rgb ((py * W + px) * 3 + 2)) ∧
    (px % 2 = 0 → py % 2 = 0 →
      us_rgb24_to_nv12 rgb W H nv12 (W * H + py / 2 * W + px) =
        rgb_to_nv12_u_spec (rgb ((py * W + px) * 3)) (rgb ((py * W + px) * 3 + 1))
          (rgb ((py * W + px) * 3 + 2)) ∧
      us_rgb24_to_nv12 rgb W H nv12 (W * H + py / 2 * W + px + 1) =
        rgb_to_nv12_v_spec (rgb ((py * W + px) * 3)) (rgb ((py * W + px) * 3 + 1))
          (rgb ((py * W + px) * 3 + 2))) ∧
    us_overlay_rgb_to_yuv 255 0 0 = (82, 90, 240) := by
  refine ⟨us_overlay_rgb_to_yuv_spec_eq, ?_, ?_, by decide⟩
  · rw [us_rgb24_to_nv12_read_y rgb W H nv12 px py hx hy, c_clamp_y_eq]
  · intro hpx hpy
    constructor
    · rw [us_rgb24_to_nv12_read_u rgb W H nv12 px py hW hx hy hpx hpy, c_clamp_u_eq]
    · rw [us_rgb24_to_nv12_read_v rgb W H nv12 px py hW hx hy hpx hpy, c_clamp_v_eq]

/-- C7 witness: the pixel-level facts on a concrete 2x2 all-red image. -/
theorem C7_rgb_to_nv12_bt601_witness :
    (∀ r g b : Nat, us_overlay_rgb_to_yuv r g b =
      (rgb_to_nv12_y_spec r g b, rgb_to_nv12_u_spec r g b, rgb_to_nv12_v_spec r g b)) ∧
    us_rgb24_to_nv12 (fun i => if i % 3 = 0 then 255 else 0) 2 2 (fun _ => 0)
        (0 * 2 + 0) =
      rgb_to_nv12_y_spec ((fun i : Nat => if i % 3 = 0 then 255 else 0) ((0 * 2 + 0) * 3))
        ((fun i : Nat => if i % 3 = 0 then 255 else 0) ((0 * 2 + 0) * 3 + 1))
        ((fun i : Nat => if i % 3 = 0 then 255 else 0) ((0 * 2 + 0) * 3 + 2)) ∧
    (0 % 2 = 0 → 0 % 2 = 0 →
      us_rgb24_to_nv12 (fun i => if i % 3 = 0 then 255 else 0) 2 2 (fun _ => 0)
          (2 * 2 + 0 / 2 * 2 + 0) =
        rgb_to_nv12_u_spec ((fun i : Nat => if i % 3 = 0 then 255 else 0) ((0 * 2 + 0) * 3))
          ((fun i : Nat => if i % 3 = 0 then 255 else 0) ((0 * 2 + 0) * 3 + 1))
          ((fun i : Nat => if i % 3 = 0 then 255 else 0) ((0 * 2 + 0) * 3 + 2)) ∧
      us_rgb24_to_nv12 (fun i => if i % 3 = 0 then 255 else 0) 2 2 (fun _ => 0)
          (2 * 2 + 0 / 2 * 2 + 0 + 1) =
        rgb_to_nv12_v_spec ((fun i : Nat => if i % 3 = 0 then 255 else 0) ((0 * 2 + 0) * 3))
          ((fun i : Nat => if i % 3 = 0 then 255 else 0) ((0 * 2 + 0) * 3 + 1))
          ((fun i : Nat => if i % 3 = 0 then 255 else 0) ((0 * 2 + 0) * 3 + 2))) ∧
    us_overlay_rgb_to_yuv 255 0 0 = (82, 90, 240) :=
  C7_rgb_to_nv12_bt601 (fun i => if i % 3 = 0 then 255 else 0) 2 2 (fun _ => 0) 0 0
    (by decide) (by decide) (by decide)

/-- `align16` never shrinks. -/
theorem align16_ge (x : Nat) : x ≤ align16 x := by
  unfold align16; omega

/-- `align16` is even. -/
theorem align16_even (x : Nat) : align16 x % 2 = 0 := by
  unfold align16; omega

/-- `clearBit0` is even. -/
theorem clearBit0_even (x : Nat) : clearBit0 x % 2 = 0 := by
  unfold clearBit0; omega

/-- A Y row of the downscaler leaves offsets outside its row unchanged. -/
theorem ds_y_row_untouched (src : Buf) (sw sx_fp sy_fp Ys dw dy : Nat) (b : Buf) (j : Nat)
    (h : ∀ dx, dx < dw → j ≠ dy * Ys + dx) :
    ds_y_row src sw sx_fp sy_fp Ys dw dy b j = b j := by
  unfold ds_y_row
  refine @iterGo_frame _ (fun dx j => j = dy * Ys + dx) dw 0 b j ?_ ?_
  · intro d st hd1 hd2 hnt
    exact wr_ne _ _ _ _ hnt
  · intro d hd1 hd2
    exact h d (by omega)

/-- A Y row of the downscaler writes the nearest-neighbour source sample. -/
theorem ds_y_row_at (src : Buf) (sw sx_fp sy_fp Ys dw dy dx : Nat) (b : Buf)
    (hdx : dx < dw) :
    ds_y_row src sw sx_fp sy_fp Ys dw dy b (dy * Ys + dx) =
      src (((dy * sy_fp) >>> 16) * sw + ((dx * sx_fp) >>> 16)) := by
  unfold ds_y_row
  refine @iterGo_val _ (fun d j => j = dy * Ys + d)
    (fun _ => src (((dy * sy_fp) >>> 16) * sw + ((dx * sx_fp) >>> 16)))
    dw 0 b (dy * Ys + dx) dx ?_ ?_ (by omega) (by omega) rfl ?_
  · intro d st hd1 hd2 hnt
    exact wr_ne _ _ _ _ hnt
  · intro d st hd1 hd2 ht
    have hd : d = dx := by omega
    subst hd
    exact wr_eq _ _ _
  · intro d hd1 hd2 hne ht
    exact hne (by omega)

/-- A UV row of the downscaler leaves offsets outside its pair-writes
unchanged. -/
theorem ds_uv_row_untouched (src : Buf) (sw sx_fp suv_fp Us dw src_uv base dy : Nat)
    (b : Buf) (j : Nat)
    (h : ∀ k, k < (dw + 1) / 2 →
      j ≠ base + dy * Us + 2 * k ∧ j ≠ base + dy * Us + 2 * k + 1) :
    ds_uv_row src sw sx_fp suv_fp Us dw src_uv base dy b j = b j := by
  unfold ds_uv_row
  refine @iterGo_frame _
    (fun k j => j = base + dy * Us + 2 * k ∨ j = base + dy * Us + 2 * k + 1)
    ((dw + 1) / 2) 0 b j ?_ ?_
  · intro d st hd1 hd2 hnt
    show wr
        (wr st (base + dy * Us + 2 * d)
          (src (src_uv + ((dy * suv_fp) >>> 16) * sw + clearBit0 ((2 * d * sx_fp) >>> 16))))
        (base + dy * Us + 2 * d + 1)
        (src (src_uv + ((dy * suv_fp) >>> 16) * sw + clearBit0 ((2 * d * sx_fp) >>> 16) + 1))
        j = st j
    rw [wr_ne _ _ _ _ (by omega), wr_ne _ _ _ _ (by omega)]
  · intro d hd1 hd2
    have h2 := h d (by omega)
    tauto

/-- A UV row of the downscaler writes the U byte of the pair-aligned source
column at each even destination column. -/
theorem ds_uv_row_at_u (src : Buf) (sw sx_fp suv_fp Us dw src_uv base dy dx : Nat)
    (b : Buf) (hdx : dx < dw) (hde : dx % 2 = 0) :
    ds_uv_row src sw sx_fp suv_fp Us dw src_uv base dy b (base + dy * Us + dx) =
      src (src_uv + ((dy * suv_fp) >>> 16) * sw + clearBit0 ((dx * sx_fp) >>> 16)) := by
  unfold ds_uv_row
  refine @iterGo_val _
    (fun k j => j = base + dy * Us + 2 * k ∨ j = base + dy * Us + 2 * k + 1)
    (fun _ => src (src_uv + ((dy * suv_fp) >>> 16) * sw + clearBit0 ((dx * sx_fp) >>> 16)))
    ((dw + 1) / 2) 0 b (base + dy * Us + dx) (dx / 2) ?_ ?_ (by omega) (by omega)
    (Or.inl (by omega)) ?_
  · intro d st hd1 hd2 hnt
    show wr
        (wr st (base + dy * Us + 2 * d)
          (src (src_uv + ((dy * suv_fp) >>> 16) * sw + clearBit0 ((2 * d * sx_fp) >>> 16))))
        (base + dy * Us + 2 * d + 1)
        (src (src_uv + ((dy * suv_fp) >>> 16) * sw + clearBit0 ((2 * d * sx_fp) >>> 16) + 1))
        _ = st _
    rw [wr_ne _ _ _ _ (by omega), wr_ne _ _ _ _ (by omega)]
  · intro d st hd1 hd2 ht
    have hd : d = dx / 2 := by omega
    subst hd
    show wr
        (wr st (base + dy * Us + 2 * (dx / 2))
          (src (src_uv + ((dy * suv_fp) >>> 16) * sw +
            clearBit0 ((2 * (dx / 2) * sx_fp) >>> 16))))
        (base + dy * Us + 2 * (dx / 2) + 1)
        (src (src_uv + ((dy * suv_fp) >>> 16) * sw +
          clearBit0 ((2 * (dx / 2) * sx_fp) >>> 16) + 1))
        _ = _
    rw [show 2 * (dx / 2) = dx from by omega]
    rw [wr_ne _ _ _ _ (by omega), wr_eq]
  · intro d hd1 hd2 hne ht
    rcases ht with h | h <;> exact hne (by omega)

/-- A UV row of the downscaler writes the paired V byte (source column plus
one) right after each U byte. -/
theorem ds_uv_row_at_v (src : Buf) (sw sx_fp suv_fp Us dw src_uv base dy dx : Nat)
    (b : Buf) (hdx : dx < dw) (hde : dx % 2 = 0) :
    ds_uv_row src sw sx_fp suv_fp Us dw src_uv base dy b (base + dy * Us + dx + 1) =
      src (src_uv + ((dy * suv_fp) >>> 16) * sw + clearBit0 ((dx * sx_fp) >>> 16) + 1) := by
  unfold ds_uv_row
  refine @iterGo_val _
    (fun k j => j = base + dy * Us + 2 * k ∨ j = base + dy * Us + 2 * k + 1)
    (fun _ => src (src_uv + ((dy * suv_fp) >>> 16) * sw +
      clearBit0 ((dx * sx_fp) >>> 16) + 1))
    ((dw + 1) / 2) 0 b (base + dy * Us + dx + 1) (dx / 2) ?_ ?_ (by omega) (by omega)
    (Or.inr (by omega)) ?_
  · intro d st hd1 hd2 hnt
    show wr
        (wr st (base + dy * Us + 2 * d)
          (src (src_uv + ((dy * suv_fp) >>> 16) * sw + clearBit0 ((2 * d * sx_fp) >>> 16))))
        (base + dy * Us + 2 * d + 1)
        (src (src_uv + ((dy * suv_fp) >>> 16) * sw + clearBit0 ((2 * d * sx_fp) >>> 16) + 1))
        _ = st _
    rw [wr_ne _ _ _ _ (by omega), wr_ne _ _ _ _ (by omega)]
  · intro d st hd1 hd2 ht
    have hd : d = dx / 2 := by omega
    subst hd
    show wr
        (wr st (base + dy * Us + 2 * (dx / 2))
          (src (src_uv + ((dy * suv_fp) >>> 16) * sw +
            clearBit0 ((2 * (dx / 2) * sx_fp) >>> 16))))
        (base + dy * Us + 2 * (dx / 2) + 1)
        (src (src_uv + ((dy * suv_fp) >>> 16) * sw +
          clearBit0 ((2 * (dx / 2) * sx_fp) >>> 16) + 1))
        _ = _
    rw [show 2 * (dx / 2) = dx from by omega]
    rw [wr_eq]
  · intro d hd1 hd2 hne ht
    rcases ht with h | h <;> exact hne (by omega)

/-- Reading the downscaled Y plane at `(dx, dy)`: the nearest-neighbour
source sample selected by the 16.16 fixed-point factors. -/
theorem us_downscale_nv12_read_y (src : Buf) (sw sh : Nat) (dst : Buf)
    (dw dh dx dy : Nat) (hdx : dx < dw) (hdy : dy < dh) :
    us_downscale_nv12 src sw sh dst dw dh (dy * align16 dw + dx) =
      src (((dy * ((sh <<< 16) / dh)) >>> 16) * sw + ((dx * ((sw <<< 16) / dw)) >>> 16)) := by
  have hYs := align16_ge dw
  have hVs := align16_ge dh
  have hbase : dy * align16 dw + dx < align16 dw * align16 dh := by
    have e1 : (dy + 1) * align16 dw = dy * align16 dw + align16 dw := by ring
    have e2 : (dy + 1) * align16 dw ≤ dh * align16 dw := Nat.mul_le_mul_right _ hdy
    have e3 : dh * align16 dw ≤ align16 dh * align16 dw := Nat.mul_le_mul_right _ hVs
    have e4 : align16 dh * align16 dw = align16 dw * align16 dh := Nat.mul_comm _ _
    omega
  simp only [us_downscale_nv12]
  refine Eq.trans
    (@iterGo_frame _ (fun _ j => align16 dw * align16 dh ≤ j) (dh / 2) 0 _ _ ?_ ?_) ?_
  · intro d st hd1 hd2 hnt
    refine ds_uv_row_untouched _ _ _ _ _ _ _ _ _ _ _ ?_
    intro k hk
    constructor <;> omega
  · intro d hd1 hd2
    omega
  · refine @iterGo_val _ (fun r j => ∃ c, c < dw ∧ j = r * align16 dw + c)
      (fun _ => src (((dy * ((sh <<< 16) / dh)) >>> 16) * sw +
        ((dx * ((sw <<< 16) / dw)) >>> 16)))
      dh 0 dst _ dy ?_ ?_ (by omega) (by omega) ⟨dx, hdx, rfl⟩ ?_
    · intro r st hr1 hr2 hnt
      refine ds_y_row_untouched _ _ _ _ _ _ _ _ _ ?_
      intro c hc hj
      exact hnt ⟨c, hc, hj⟩
    · intro r st hr1 hr2 ht
      obtain ⟨c, hc, hj⟩ := ht
      obtain ⟨hr, hc2⟩ := row_off_inj (show dx < align16 dw by omega)
        (show c < align16 dw by omega) hj
      subst hr
      subst hc2
      exact ds_y_row_at _ _ _ _ _ _ _ _ _ hdx
    · intro r hr1 hr2 hne ht
      obtain ⟨c, hc, hj⟩ := ht
      exact hne (row_off_inj (show dx < align16 dw by omega)
        (show c < align16 dw by omega) hj).1.symm

/-- Reading the downscaled UV plane at an even destination column: the U
byte of the pair-aligned source column. -/
theorem us_downscale_nv12_read_u (src : Buf) (sw sh : Nat) (dst : Buf)
    (dw dh dx dy : Nat) (hdx : dx < dw) (hde : dx % 2 = 0) (hdy : dy < dh / 2) :
    us_downscale_nv12 src sw sh dst dw dh
        (align16 dw * align16 dh + dy * align16 dw + dx) =
      src (sw * sh + ((dy * (((sh / 2) <<< 16) / (dh / 2))) >>> 16) * sw +
        clearBit0 ((dx * ((sw <<< 16) / dw)) >>> 16)) := by
  have hYs := align16_ge dw
  have hYe := align16_even dw
  simp only [us_downscale_nv12]
  refine @iterGo_val _
    (fun r j => ∃ k, k < (dw + 1) / 2 ∧
      (j = align16 dw * align16 dh + r * align16 dw + 2 * k ∨
       j = align16 dw * align16 dh + r * align16 dw + 2 * k + 1))
    (fun _ => src (sw * sh + ((dy * (((sh / 2) <<< 16) / (dh / 2))) >>> 16) * sw +
      clearBit0 ((dx * ((sw <<< 16) / dw)) >>> 16)))
    (dh / 2) 0 _ _ dy ?_ ?_ (by omega) (by omega)
    ⟨dx / 2, by omega, Or.inl (by omega)⟩ ?_
  · intro r st hr1 hr2 hnt
    refine ds_uv_row_untouched _ _ _ _ _ _ _ _ _ _ _ ?_
    intro k hk
    constructor
    · intro he; exact hnt ⟨k, hk, Or.inl he⟩
    · intro he; exact hnt ⟨k, hk, Or.inr he⟩
  · intro r st hr1 hr2 ht
    obtain ⟨k, hk, hor⟩ := ht
    have hr : r = dy := by
      rcases hor with h | h
      · have h2 : dy * align16 dw + dx = r * align16 dw + 2 * k := by omega
        have := row_off_inj (show dx < align16 dw by omega)
          (show 2 * k < align16 dw by omega) h2
        omega
      · have h2 : dy * align16 dw + dx = r * align16 dw + (2 * k + 1) := by omega
        have := row_off_inj (show dx < align16 dw by omega)
          (show 2 * k + 1 < align16 dw by omega) h2
        omega
    subst hr
    exact ds_uv_row_at_u _ _ _ _ _ _ _ _ _ _ _ hdx hde
  · intro r hr1 hr2 hne ht
    obtain ⟨k, hk, hor⟩ := ht
    rcases hor with h | h
    · have h2 : dy * align16 dw + dx = r * align16 dw + 2 * k := by omega
      have := row_off_inj (show dx < align16 dw by omega)
        (show 2 * k < align16 dw by omega) h2
      omega
    · have h2 : dy * align16 dw + dx = r * align16 dw + (2 * k + 1) := by omega
      have := row_off_inj (show dx < align16 dw by omega)
        (show 2 * k + 1 < align16 dw by omega) h2
      omega

/-- Reading the downscaled UV plane right after an even destination column:
the V byte paired with the preceding U. -/
theorem us_downscale_nv12_read_v (src : Buf) (sw sh : Nat) (dst : Buf)
    (dw dh dx dy : Nat) (hdx : dx < dw) (hde : dx % 2 = 0) (hdy : dy < dh / 2) :
    us_downscale_nv12 src sw sh dst dw dh
        (align16 dw * align16 dh + dy * align16 dw + dx + 1) =
      src (sw * sh + ((dy * (((sh / 2) <<< 16) / (dh / 2))) >>> 16) * sw +
        clearBit0 ((dx * ((sw <<< 16) / dw)) >>> 16) + 1) := by
  have hYs := align16_ge dw
  have hYe := align16_even dw
  simp only [us_downscale_nv12]
  refine @iterGo_val _
    (fun r j => ∃ k, k < (dw + 1) / 2 ∧
      (j = align16 dw * align16 dh + r * align16 dw + 2 * k ∨
       j = align16 dw * align16 dh + r * align16 dw + 2 * k + 1))
    (fun _ => src (sw * sh + ((dy * (((sh / 2) <<< 16) / (dh / 2))) >>> 16) * sw +
      clearBit0 ((dx * ((sw <<< 16) / dw)) >>> 16) + 1))
    (dh / 2) 0 _ _ dy ?_ ?_ (by omega) (by omega)
    ⟨dx / 2, by omega, Or.inr (by omega)⟩ ?_
  · intro r st hr1 hr2 hnt
    refine ds_uv_row_untouched _ _ _ _ _ _ _ _ _ _ _ ?_
    intro k hk
    constructor
    · intro he; exact hnt ⟨k, hk, Or.inl he⟩
    · intro he; exact hnt ⟨k, hk, Or.inr he⟩
  · intro r st hr1 hr2 ht
    obtain ⟨k, hk, hor⟩ := ht
    have hr : r = dy := by
      rcases hor with h | h
      · have h2 : dy * align16 dw + (dx + 1) = r * align16 dw + 2 * k := by omega
        have := row_off_inj (show dx + 1 < align16 dw by omega)
          (show 2 * k < align16 dw by omega) h2
        omega
      · have h2 : dy * align16 dw + (dx + 1) = r * align16 dw + (2 * k + 1) := by omega
        have := row_off_inj (show dx + 1 < align16 dw by omega)
          (show 2 * k + 1 < align16 dw by omega) h2
        omega
    subst hr
    exact ds_uv_row_at_v _ _ _ _ _ _ _ _ _ _ _ hdx hde
  · intro r hr1 hr2 hne ht
    obtain ⟨k, hk, hor⟩ := ht
    rcases hor with h | h
    · have h2 : dy * align16 dw + (dx + 1) = r * align16 dw + 2 * k := by omega
      have := row_off_inj (show dx + 1 < align16 dw by omega)
        (show 2 * k < align16 dw by omega) h2
      omega
    · have h2 : dy * align16 dw + (dx + 1) = r * align16 dw + (2 * k + 1) := by omega
      have := row_off_inj (show dx + 1 < align16 dw by omega)
        (show 2 * k + 1 < align16 dw by omega) h2
      omega

/-- C3: for every packed NV12 source of even dimensions and every even
destination geometry not exceeding the source, the downscaler samples each
Y output pixel from source pixel
`((dx * ((sw << 16) / dw)) >> 16, (dy * ((sh << 16) / dh)) >> 16)`, places
the destination UV plane at byte offset `align16(dw) * align16(dh)`,
computes each UV row from `((sh / 2) << 16) / (dh / 2)`, and takes the
pair-aligned source column `((dx * sx) >> 16) & ~1`, so every even
destination UV column holds a U byte from an even source index and the
following byte holds its paired V. -/
theorem C3_downscale_nv12_nearest (src : Buf) (src_width src_height : Nat)
    (dst : Buf) (dst_width dst_height : Nat)
    (hsw : src_width % 2 = 0) (hsh : src_height % 2 = 0)
    (hdw : dst_width % 2 = 0) (hdh : dst_height % 2 = 0)
    (hw0 : 0 < dst_width) (hh0 : 0 < dst_height)
    (hwle : dst_width ≤ src_width) (hhle : dst_height ≤ src_height) :
    (∀ dx dy, dx < dst_width → dy < dst_height →
      us_downscale_nv12 src src_width src_height dst dst_width dst_height
          (dy * align16 dst_width + dx) =
        src (((dy * ((src_height <<< 16) / dst_height)) >>> 16) * src_width +
          ((dx * ((src_width <<< 16) / dst_width)) >>> 16))) ∧
    (∀ dx dy, dx < dst_width → dx % 2 = 0 → dy < dst_height / 2 →
      us_downscale_nv12 src src_width src_height dst dst_width dst_height
          (align16 dst_width * align16 dst_height + dy * align16 dst_width + dx) =
        src (src_width * src_height +
          ((dy * (((src_height / 2) <<< 16) / (dst_height / 2))) >>> 16) * src_width +
          clearBit0 ((dx * ((src_width <<< 16) / dst_width)) >>> 16)) ∧
      us_downscale_nv12 src src_width src_height dst dst_width dst_height
          (align16 dst_width * align16 dst_height + dy * align16 dst_width + dx + 1) =
        src (src_width * src_height +
          ((dy * (((src_height / 2) <<< 16) / (dst_height / 2))) >>> 16) * src_width +
          clearBit0 ((dx * ((src_width <<< 16) / dst_width)) >>> 16) + 1) ∧
      clearBit0 ((dx * ((src_width <<< 16) / dst_width)) >>> 16) % 2 = 0) := by
  constructor
  · intro dx dy h1 h2
    exact us_downscale_nv12_read_y src src_width src_height dst dst_width dst_height
      dx dy h1 h2
  · intro dx dy h1 h2 h3
    exact ⟨us_downscale_nv12_read_u src src_width src_height dst dst_width dst_height
        dx dy h1 h2 h3,
      us_downscale_nv12_read_v src src_width src_height dst dst_width dst_height
        dx dy h1 h2 h3,
      clearBit0_even _⟩

/-- C3 witness: the pixel facts of a concrete 4x4 to 2x2 downscale of the
identity-valued source buffer. -/
theorem C3_downscale_nv12_nearest_witness :
    (∀ dx dy, dx < 2 → dy < 2 →
      us_downscale_nv12 (fun j => j) 4 4 (fun _ => 99) 2 2 (dy * align16 2 + dx) =
        (fun j : Nat => j) (((dy * ((4 <<< 16) / 2)) >>> 16) * 4 +
          ((dx * ((4 <<< 16) / 2)) >>> 16))) ∧
    (∀ dx dy, dx < 2 → dx % 2 = 0 → dy < 2 / 2 →
      us_downscale_nv12 (fun j => j) 4 4 (fun _ => 99) 2 2
          (align16 2 * align16 2 + dy * align16 2 + dx) =
        (fun j : Nat => j) (4 * 4 +
          ((dy * (((4 / 2) <<< 16) / (2 / 2))) >>> 16) * 4 +
          clearBit0 ((dx * ((4 <<< 16) / 2)) >>> 16)) ∧
      us_downscale_nv12 (fun j => j) 4 4 (fun _ => 99) 2 2
          (align16 2 * align16 2 + dy * align16 2 + dx + 1) =
        (fun j : Nat => j) (4 * 4 +
          ((dy * (((4 / 2) <<< 16) / (2 / 2))) >>> 16) * 4 +
          clearBit0 ((dx * ((4 <<< 16) / 2)) >>> 16) + 1) ∧
      clearBit0 ((dx * ((4 <<< 16) / 2)) >>> 16) % 2 = 0) :=
  C3_downscale_nv12_nearest (fun j => j) 4 4 (fun _ => 99) 2 2
    (by decide) (by decide) (by decide) (by decide) (by decide) (by decide)
    (by decide) (by decide)

/-- C6 counterexample: with a custom position `(0, 0)`, padding 8, a 104x8
text block and a 64x64 frame, the reserved box (120 wide) exceeds the
frame, and the final clamp `out_x = frame_width - total_width` drives the
position to `-56 < 0`: the box is not kept inside the frame. -/
theorem C6_calc_position_counterexample :
    (us_calc_position
      { enabled := true, text := [65], position := .custom, x := 0, y := 0,
        scale := 1, y_color := 235, u_color := 128, v_color := 128,
        background := true, bg_y := 16, bg_u := 128, bg_v := 128,
        bg_alpha := 180, padding := 8 }
      64 64 104 8).1 = -56 ∧
    ¬ (0 ≤ (us_calc_position
      { enabled := true, text := [65], position := .custom, x := 0, y := 0,
        scale := 1, y_color := 235, u_color := 128, v_color := 128,
        background := true, bg_y := 16, bg_u := 128, bg_v := 128,
        bg_alpha := 180, padding := 8 }
      64 64 104 8).1) := by
  constructor
  · decide
  · decide

/-- C6 (amended): whenever the reserved box (text size plus `2 * padding`
per axis) fits inside the frame, the clamped overlay position keeps it
fully in-frame: `out_x ≥ 0`, `out_y ≥ 0`, `out_x + total_width ≤
frame_width` and `out_y + total_height ≤ frame_height`. -/
theorem C6_calc_position_in_frame (config : OverlayConfig) (fw fh tw th : Nat)
    (hw : tw + 2 * config.padding ≤ fw) (hh : th + 2 * config.padding ≤ fh) :
    0 ≤ (us_calc_position config fw fh tw th).1 ∧
    0 ≤ (us_calc_position config fw fh tw th).2 ∧
    (us_calc_position config fw fh tw th).1 + ((tw : Int) + 2 * (config.padding : Int))
      ≤ (fw : Int) ∧
    (us_calc_position config fw fh tw th).2 + ((th : Int) + 2 * (config.padding : Int))
      ≤ (fh : Int) := by
  obtain ⟨enabled, text, position, x, y, scale, yc, uc, vc, bg, bgy, bgu, bgv, bga, pad⟩ :=
    config
  simp only at hw hh
  cases position <;>
    · simp only [us_calc_position]
      split_ifs <;> refine ⟨by omega, by omega, by omega, by omega⟩

/-- C6 witness: the amended bound at a concrete fitting configuration. -/
theorem C6_calc_position_in_frame_witness :
    0 ≤ (us_calc_position
      { enabled := true, text := [65], position := .topRight, x := 0, y := 0,
        scale := 1, y_color := 235, u_color := 128, v_color := 128,
        background := true, bg_y := 16, bg_u := 128, bg_v := 128,
        bg_alpha := 180, padding := 8 }
      64 64 8 8).1 ∧
    0 ≤ (us_calc_position
      { enabled := true, text := [65], position := .topRight, x := 0, y := 0,
        scale := 1, y_color := 235, u_color := 128, v_color := 128,
        background := true, bg_y := 16, bg_u := 128, bg_v := 128,
        bg_alpha := 180, padding := 8 }
      64 64 8 8).2 ∧
    (us_calc_position
      { enabled := true, text := [65], position := .topRight, x := 0, y := 0,
        scale := 1, y_color := 235, u_color := 128, v_color := 128,
        background := true, bg_y := 16, bg_u := 128, bg_v := 128,
        bg_alpha := 180, padding := 8 }
      64 64 8 8).1 + ((8 : Int) + 2 * ((8 : Nat) : Int)) ≤ ((64 : Nat) : Int) ∧
    (us_calc_position
      { enabled := true, text := [65], position := .topRight, x := 0, y := 0,
        scale := 1, y_color := 235, u_color := 128, v_color := 128,
        background := true, bg_y := 16, bg_u := 128, bg_v := 128,
        bg_alpha := 180, padding := 8 }
      64 64 8 8).2 + ((8 : Int) + 2 * ((8 : Nat) : Int)) ≤ ((64 : Nat) : Int) :=
  C6_calc_position_in_frame
    { enabled := true, text := [65], position := .topRight, x := 0, y := 0,
      scale := 1, y_color := 235, u_color := 128, v_color := 128,
      background := true, bg_y := 16, bg_u := 128, bg_v := 128,
      bg_alpha := 180, padding := 8 }
    64 64 8 8 (by decide) (by decide)

/-- `x >>> 8` on `Nat` is division by 256. -/
theorem shiftRight8_eq (x : Nat) : x >>> 8 = x / 256 := by
  rw [Nat.shiftRight_eq_div_pow]

/-- Blending with alpha 0 leaves a byte value unchanged. -/
theorem rect_blend_zero (c old : Nat) (h : old ≤ 255) :
    rect_blend 0 (256 - 0) c old = old := by
  unfold rect_blend
  rw [shiftRight8_eq]
  omega

/-- A loop whose body fixes `b` leaves `b` fixed. -/
theorem iterGo_fixed {α : Type} {f : Nat → α → α} (b : α)
    (hf : ∀ d, f d b = b) : ∀ (n i : Nat), iterGo f i n b = b := by
  intro n
  induction n with
  | zero => intro i; rfl
  | succ m ih =>
    intro i
    show iterGo f (i + 1) m (f i b) = b
    rw [hf i]
    exact ih (i + 1)

/-- `_draw_rect_nv12` factors into its Y-plane and UV-plane projections. -/
theorem us_draw_rect_nv12_split (y_plane uv_plane : Buf) (ys uss fw fh x y w h : Nat)
    (bgY bgU bgV a : Nat) :
    us_draw_rect_nv12 y_plane uv_plane ys uss fw fh x y w h bgY bgU bgV a =
      (us_draw_rect_nv12_y y_plane ys fw fh x y w h bgY a,
       us_draw_rect_nv12_uv uv_plane uss fw fh x y w h bgU bgV a) := by
  unfold us_draw_rect_nv12 us_draw_rect_nv12_y us_draw_rect_nv12_uv
  refine iterGo_pair ?_ (min (y + h) fh - y) y (y_plane, uv_plane)
  intro py p
  refine iterGo_pair ?_ (min (x + w) fw - x) x p
  intro px st
  dsimp only
  split_ifs <;> rfl

/-- `_draw_char_nv12` factors into its Y-plane and UV-plane projections. -/
theorem us_draw_char_nv12_split (y_plane uv_plane : Buf) (ys uss fw fh x y : Nat)
    (font : Nat → Nat → Nat) (ch scale fgY fgU fgV : Nat) :
    us_draw_char_nv12 y_plane uv_plane ys uss fw fh x y font ch scale fgY fgU fgV =
      (us_draw_char_nv12_y y_plane ys fw fh x y font ch scale fgY,
       us_draw_char_nv12_uv uv_plane uss fw fh x y font ch scale fgU fgV) := by
  unfold us_draw_char_nv12 us_draw_char_nv12_y us_draw_char_nv12_uv
  by_cases hch : ch ≥ 128 <;>
    [simp only [if_pos hch]; skip] <;>
    [skip; simp only [if_neg hch]] <;>
    · refine iterGo_pair ?_ 8 0 (y_plane, uv_plane)
      intro cy p
      refine iterGo_pair ?_ 8 0 p
      intro cx q
      dsimp only
      split_ifs with hbit
      · refine iterGo_pair ?_ scale 0 q
        intro sy r
        refine iterGo_pair ?_ scale 0 r
        intro sx t
        dsimp only
        split_ifs <;> rfl
      · rfl

/-- The rect pass blends each covered Y pixel with the box colour, reading
the original value there. -/
theorem us_draw_rect_nv12_y_read (y_plane : Buf) (ys fw fh x y w h bgY a : Nat)
    (px py : Nat) (hys : fw ≤ ys)
    (hx1 : x ≤ px) (hx2 : px < min (x + w) fw)
    (hy1 : y ≤ py) (hy2 : py < min (y + h) fh) :
    us_draw_rect_nv12_y y_plane ys fw fh x y w h bgY a (py * ys + px) =
      rect_blend a (256 - a) bgY (y_plane (py * ys + px)) := by
  unfold us_draw_rect_nv12_y
  refine @iterGo_val _ (fun r j => ∃ c, x ≤ c ∧ c < min (x + w) fw ∧ j = r * ys + c)
    (fun v => rect_blend a (256 - a) bgY v)
    (min (y + h) fh - y) y y_plane (py * ys + px) py ?_ ?_ (by omega) (by omega)
    ⟨px, hx1, hx2, rfl⟩ ?_
  · intro r st hr1 hr2 hnt
    refine @iterGo_frame _ (fun c j => j = r * ys + c) (min (x + w) fw - x) x st _ ?_ ?_
    · intro c st2 hc1 hc2 hne
      exact wr_ne _ _ _ _ hne
    · intro c hc1 hc2 hj
      exact hnt ⟨c, by omega, by omega, hj⟩
  · intro r st hr1 hr2 ht
    obtain ⟨c, hc1, hc2, hj⟩ := ht
    obtain ⟨hr, hc⟩ := row_off_inj (show px < ys by omega) (show c < ys by omega) hj
    subst hr
    subst hc
    refine @iterGo_val _ (fun c j => j = py * ys + c)
      (fun v => rect_blend a (256 - a) bgY v)
      (min (x + w) fw - x) x st _ px ?_ ?_ (by omega) (by omega) rfl ?_
    · intro c st2 hcc1 hcc2 hne
      exact wr_ne _ _ _ _ hne
    · intro c st2 hcc1 hcc2 htt
      have hcx : c = px := by omega
      subst hcx
      exact wr_eq _ _ _
    · intro c hcc1 hcc2 hne htt
      exact hne (by omega)
  · intro r hr1 hr2 hne ht
    obtain ⟨c, hc1, hc2, hj⟩ := ht
    exact hne (row_off_inj (show px < ys by omega) (show c < ys by omega) hj).1.symm

/-- The rect pass blends the U byte of each covered even 2x2 block. -/
theorem us_draw_rect_nv12_uv_read_u (uv_plane : Buf) (uss fw fh x y w h bgU bgV a : Nat)
    (px py : Nat) (huss : fw ≤ uss) (husse : uss % 2 = 0)
    (hx1 : x ≤ px) (hx2 : px < min (x + w) fw)
    (hy1 : y ≤ py) (hy2 : py < min (y + h) fh)
    (hpxe : px % 2 = 0) (hpye : py % 2 = 0) :
    us_draw_rect_nv12_uv uv_plane uss fw fh x y w h bgU bgV a (py / 2 * uss + px) =
      rect_blend a (256 - a) bgU (uv_plane (py / 2 * uss + px)) := by
  unfold us_draw_rect_nv12_uv
  refine @iterGo_val _
    (fun r j => r % 2 = 0 ∧ ∃ c, x ≤ c ∧ c < min (x + w) fw ∧ c % 2 = 0 ∧
      (j = r / 2 * uss + c ∨ j = r / 2 * uss + c + 1))
    (fun v => rect_blend a (256 - a) bgU v)
    (min (y + h) fh - y) y uv_plane (py / 2 * uss + px) py ?_ ?_ (by omega) (by omega)
    ⟨hpye, px, hx1, hx2, hpxe, Or.inl rfl⟩ ?_
  · intro r st hr1 hr2 hnt
    refine @iterGo_frame _
      (fun c j => c % 2 = 0 ∧ r % 2 = 0 ∧ (j = r / 2 * uss + c ∨ j = r / 2 * uss + c + 1))
      (min (x + w) fw - x) x st _ ?_ ?_
    · intro c st2 hc1 hc2 hne
      dsimp only
      split_ifs with hc
      · rw [wr_ne _ _ _ _ (fun he => hne ⟨hc.1, hc.2, Or.inr he⟩),
          wr_ne _ _ _ _ (fun he => hne ⟨hc.1, hc.2, Or.inl he⟩)]
      · rfl
    · intro c hc1 hc2 ht
      exact hnt ⟨ht.2.1, c, by omega, by omega, ht.1, ht.2.2⟩
  · intro r st hr1 hr2 ht
    obtain ⟨hre, c, hc1, hc2, hce, hor⟩ := ht
    have hr : r = py := by
      rcases hor with hj | hj
      · have := row_off_inj (show px < uss by omega) (show c < uss by omega) hj
        omega
      · have := row_off_inj (show px < uss by omega) (show c + 1 < uss by omega) hj
        omega
    subst hr
    refine @iterGo_val _
      (fun c j => c % 2 = 0 ∧ r % 2 = 0 ∧ (j = r / 2 * uss + c ∨ j = r / 2 * uss + c + 1))
      (fun v => rect_blend a (256 - a) bgU v)
      (min (x + w) fw - x) x st _ px ?_ ?_ (by omega) (by omega)
      ⟨hpxe, hpye, Or.inl rfl⟩ ?_
    · intro c st2 hcc1 hcc2 hne
      dsimp only
      split_ifs with hcx
      · rw [wr_ne _ _ _ _ (fun he => hne ⟨hcx.1, hcx.2, Or.inr he⟩),
          wr_ne _ _ _ _ (fun he => hne ⟨hcx.1, hcx.2, Or.inl he⟩)]
      · rfl
    · intro c st2 hcc1 hcc2 htt
      obtain ⟨hcex, _, horx⟩ := htt
      have hcx : c = px := by omega
      subst hcx
      dsimp only
      rw [if_pos ⟨hcex, hpye⟩]
      rw [wr_ne _ _ _ _ (by omega), wr_eq]
    · intro c hcc1 hcc2 hne htt
      obtain ⟨hcex, _, horx⟩ := htt
      rcases horx with hj | hj <;> exact hne (by omega)
  · intro r hr1 hr2 hne ht
    obtain ⟨hre, c, hc1, hc2, hce, hor⟩ := ht
    rcases hor with hj | hj
    · have := row_off_inj (show px < uss by omega) (show c < uss by omega) hj
      omega
    · have := row_off_inj (show px < uss by omega) (show c + 1 < uss by omega) hj
      omega

/-- The rect pass blends the V byte of each covered even 2x2 block. -/
theorem us_draw_rect_nv12_uv_read_v (uv_plane : Buf) (uss fw fh x y w h bgU bgV a : Nat)
    (px py : Nat) (huss : fw ≤ uss) (husse : uss % 2 = 0)
    (hx1 : x ≤ px) (hx2 : px < min (x + w) fw)
    (hy1 : y ≤ py) (hy2 : py < min (y + h) fh)
    (hpxe : px % 2 = 0) (hpye : py % 2 = 0) :
    us_draw_rect_nv12_uv uv_plane uss fw fh x y w h bgU bgV a (py / 2 * uss + px + 1) =
      rect_blend a (256 - a) bgV (uv_plane (py / 2 * uss + px + 1)) := by
  unfold us_draw_rect_nv12_uv
  refine @iterGo_val _
    (fun r j => r % 2 = 0 ∧ ∃ c, x ≤ c ∧ c < min (x + w) fw ∧ c % 2 = 0 ∧
      (j = r / 2 * uss + c ∨ j = r / 2 * uss + c + 1))
    (fun v => rect_blend a (256 - a) bgV v)
    (min (y + h) fh - y) y uv_plane (py / 2 * uss + px + 1) py ?_ ?_ (by omega) (by omega)
    ⟨hpye, px, hx1, hx2, hpxe, Or.inr rfl⟩ ?_
  · intro r st hr1 hr2 hnt
    refine @iterGo_frame _
      (fun c j => c % 2 = 0 ∧ r % 2 = 0 ∧ (j = r / 2 * uss + c ∨ j = r / 2 * uss + c + 1))
      (min (x + w) fw - x) x st _ ?_ ?_
    · intro c st2 hc1 hc2 hne
      dsimp only
      split_ifs with hc
      · rw [wr_ne _ _ _ _ (fun he => hne ⟨hc.1, hc.2, Or.inr he⟩),
          wr_ne _ _ _ _ (fun he => hne ⟨hc.1, hc.2, Or.inl he⟩)]
      · rfl
    · intro c hc1 hc2 ht
      exact hnt ⟨ht.2.1, c, by omega, by omega, ht.1, ht.2.2⟩
  · intro r st hr1 hr2 ht
    obtain ⟨hre, c, hc1, hc2, hce, hor⟩ := ht
    have hr : r = py := by
      rcases hor with hj | hj
      · have := row_off_inj (show px + 1 < uss by omega) (show c < uss by omega)
          (by omega : py / 2 * uss + (px + 1) = r / 2 * uss + c)
        omega
      · have := row_off_inj (show px + 1 < uss by omega) (show c + 1 < uss by omega)
          (by omega : py / 2 * uss + (px + 1) = r / 2 * uss + (c + 1))
        omega
    subst hr
    refine @iterGo_val _
      (fun c j => c % 2 = 0 ∧ r % 2 = 0 ∧ (j = r / 2 * uss + c ∨ j = r / 2 * uss + c + 1))
      (fun v => rect_blend a (256 - a) bgV v)
      (min (x + w) fw - x) x st _ px ?_ ?_ (by omega) (by omega)
      ⟨hpxe, hpye, Or.inr rfl⟩ ?_
    · intro c st2 hcc1 hcc2 hne
      dsimp only
      split_ifs with hcx
      · rw [wr_ne _ _ _ _ (fun he => hne ⟨hcx.1, hcx.2, Or.inr he⟩),
          wr_ne _ _ _ _ (fun he => hne ⟨hcx.1, hcx.2, Or.inl he⟩)]
      · rfl
    · intro c st2 hcc1 hcc2 htt
      obtain ⟨hcex, _, horx⟩ := htt
      have hcx : c = px := by omega
      subst hcx
      dsimp only
      rw [if_pos ⟨hcex, hpye⟩]
      rw [wr_eq]
    · intro c hcc1 hcc2 hne htt
      obtain ⟨hcex, _, horx⟩ := htt
      rcases horx with hj | hj <;> exact hne (by omega)
  · intro r hr1 hr2 hne ht
    obtain ⟨hre, c, hc1, hc2, hce, hor⟩ := ht
    rcases hor with hj | hj
    · have := row_off_inj (show px + 1 < uss by omega) (show c < uss by omega)
        (by omega : py / 2 * uss + (px + 1) = r / 2 * uss + c)
      omega
    · have := row_off_inj (show px + 1 < uss by omega) (show c + 1 < uss by omega)
        (by omega : py / 2 * uss + (px + 1) = r / 2 * uss + (c + 1))
      omega

/-- The covered-set description agrees with the per-row touch predicates. -/
theorem char_covered_iff (ys fw fh x y : Nat) (g : Nat → Nat) (scale j : Nat) :
    char_covered ys fw fh x y g scale j ↔
      ∃ cy, cy < 8 ∧ char_touch_cy g fw fh x y ys scale cy j := by
  unfold char_covered char_touch_cy char_touch_cx char_touch_sy char_touch_sx
  constructor
  · rintro ⟨cy, cx, sy, sx, h1, h2, h3, h4, h5, h6, h7, h8⟩
    exact ⟨cy, h1, cx, h2, h3, sy, h4, sx, h5, by omega, h8⟩
  · rintro ⟨cy, h1, cx, h2, h3, sy, h4, sx, h5, h6, h7⟩
    exact ⟨cy, cx, sy, sx, h1, h2, h3, h4, h5, by omega, by omega, h7⟩

/-- The innermost `sx` loop leaves untouched offsets unchanged. -/
theorem char_sx_loop_frame (fw fh x y ys scale cy cx sy fgY : Nat) (st : Buf) (j : Nat)
    (h : ∀ sx, sx < scale → ¬ char_touch_sx fw fh x y ys scale cy cx sy sx j) :
    iterGo (fun sx b =>
        if x + cx * scale + sx ≥ fw ∨ y + cy * scale + sy ≥ fh then b
        else wr b ((y + cy * scale + sy) * ys + (x + cx * scale + sx)) fgY)
      0 scale st j = st j := by
  refine @iterGo_frame _ (char_touch_sx fw fh x y ys scale cy cx sy) scale 0 st j ?_ ?_
  · intro d st2 hd1 hd2 hnt
    dsimp only
    split_ifs with hg
    · rfl
    · exact wr_ne _ _ _ _ (fun he => hnt ⟨hg, he⟩)
  · intro d hd1 hd2
    exact h d (by omega)

/-- The innermost `sx` loop writes `fgY` at every offset it touches. -/
theorem char_sx_loop_hit (fw fh x y ys scale cy cx sy fgY : Nat) (st : Buf) (j sx : Nat)
    (hsx : sx < scale) (ht : char_touch_sx fw fh x y ys scale cy cx sy sx j) :
    iterGo (fun sx b =>
        if x + cx * scale + sx ≥ fw ∨ y + cy * scale + sy ≥ fh then b
        else wr b ((y + cy * scale + sy) * ys + (x + cx * scale + sx)) fgY)
      0 scale st j = fgY := by
  refine @iterGo_const_hit _ (char_touch_sx fw fh x y ys scale cy cx sy) fgY
    scale 0 st j sx ?_ ?_ (by omega) (by omega) ht
  · intro d st2 hd1 hd2 hnt
    dsimp only
    split_ifs with hg
    · rfl
    · exact wr_ne _ _ _ _ (fun he => hnt ⟨hg, he⟩)
  · intro d st2 hd1 hd2 ht2
    obtain ⟨hg, hj⟩ := ht2
    rw [if_neg hg, hj]
    exact wr_eq _ _ _

/-- The `sy` loop leaves untouched offsets unchanged. -/
theorem char_sy_loop_frame (fw fh x y ys scale cy cx fgY : Nat) (st : Buf) (j : Nat)
    (h : ∀ sy, sy < scale → ¬ char_touch_sy fw fh x y ys scale cy cx sy j) :
    iterGo (fun sy b =>
        iterGo (fun sx b =>
            if x + cx * scale + sx ≥ fw ∨ y + cy * scale + sy ≥ fh then b
            else wr b ((y + cy * scale + sy) * ys + (x + cx * scale + sx)) fgY)
          0 scale b)
      0 scale st j = st j := by
  refine @iterGo_frame _ (char_touch_sy fw fh x y ys scale cy cx) scale 0 st j ?_ ?_
  · intro d st2 hd1 hd2 hnt
    refine char_sx_loop_frame fw fh x y ys scale cy cx d fgY st2 j ?_
    intro sx hx ht
    exact hnt ⟨sx, hx, ht⟩
  · intro d hd1 hd2
    exact h d (by omega)

/-- The `sy` loop writes `fgY` at every offset it touches. -/
theorem char_sy_loop_hit (fw fh x y ys scale cy cx fgY : Nat) (st : Buf) (j sy : Nat)
    (hsy : sy < scale) (ht : char_touch_sy fw fh x y ys scale cy cx sy j) :
    iterGo (fun sy b =>
        iterGo (fun sx b =>
            if x + cx * scale + sx ≥ fw ∨ y + cy * scale + sy ≥ fh then b
            else wr b ((y + cy * scale + sy) * ys + (x + cx * scale + sx)) fgY)
          0 scale b)
      0 scale st j = fgY := by
  refine @iterGo_const_hit _ (char_touch_sy fw fh x y ys scale cy cx) fgY
    scale 0 st j sy ?_ ?_ (by omega) (by omega) ht
  · intro d st2 hd1 hd2 hnt
    refine char_sx_loop_frame fw fh x y ys scale cy cx d fgY st2 j ?_
    intro sx hx ht2
    exact hnt ⟨sx, hx, ht2⟩
  · intro d st2 hd1 hd2 ht2
    obtain ⟨sx, hx, ht3⟩ := ht2
    exact char_sx_loop_hit fw fh x y ys scale cy cx d fgY st2 j sx hx ht3

/-- The `cx` loop (with the glyph bit test) leaves untouched offsets
unchanged. -/
theorem char_cx_loop_frame (g : Nat → Nat) (fw fh x y ys scale cy fgY : Nat)
    (st : Buf) (j : Nat)
    (h : ∀ cx, cx < 8 → ¬ char_touch_cx g fw fh x y ys scale cy cx j) :
    iterGo (fun cx b =>
        if (g cy >>> cx) % 2 = 1 then
          iterGo (fun sy b =>
              iterGo (fun sx b =>
                  if x + cx * scale + sx ≥ fw ∨ y + cy * scale + sy ≥ fh then b
                  else wr b ((y + cy * scale + sy) * ys + (x + cx * scale + sx)) fgY)
                0 scale b)
            0 scale b
        else b)
      0 8 st j = st j := by
  refine @iterGo_frame _ (char_touch_cx g fw fh x y ys scale cy) 8 0 st j ?_ ?_
  · intro d st2 hd1 hd2 hnt
    dsimp only
    split_ifs with hbit
    · refine char_sy_loop_frame fw fh x y ys scale cy d fgY st2 j ?_
      intro sy hsy ht
      exact hnt ⟨hbit, sy, hsy, ht⟩
    · rfl
  · intro d hd1 hd2
    exact h d (by omega)

/-- The `cx` loop writes `fgY` at every offset it touches. -/
theorem char_cx_loop_hit (g : Nat → Nat) (fw fh x y ys scale cy fgY : Nat)
    (st : Buf) (j cx : Nat) (hcx : cx < 8)
    (ht : char_touch_cx g fw fh x y ys scale cy cx j) :
    iterGo (fun cx b =>
        if (g cy >>> cx) % 2 = 1 then
          iterGo (fun sy b =>
              iterGo (fun sx b =>
                  if x + cx * scale + sx ≥ fw ∨ y + cy * scale + sy ≥ fh then b
                  else wr b ((y + cy * scale + sy) * ys + (x + cx * scale + sx)) fgY)
                0 scale b)
            0 scale b
        else b)
      0 8 st j = fgY := by
  refine @iterGo_const_hit _ (char_touch_cx g fw fh x y ys scale cy) fgY
    8 0 st j cx ?_ ?_ (by omega) (by omega) ht
  · intro d st2 hd1 hd2 hnt
    dsimp only
    split_ifs with hbit
    · refine char_sy_loop_frame fw fh x y ys scale cy d fgY st2 j ?_
      intro sy hsy ht2
      exact hnt ⟨hbit, sy, hsy, ht2⟩
    · rfl
  · intro d st2 hd1 hd2 ht2
    obtain ⟨hbit, sy, hsy, ht3⟩ := ht2
    rw [if_pos hbit]
    exact char_sy_loop_hit fw fh x y ys scale cy d fgY st2 j sy hsy ht3

/-- The bitmap glyph renderer sets every covered Y pixel exactly to the
foreground value (no blending). -/
theorem us_draw_char_nv12_y_covered (y_plane : Buf) (ys fw fh x y : Nat)
    (font : Nat → Nat → Nat) (ch scale fgY : Nat) (j : Nat)
    (hcov : char_covered ys fw fh x y (font (if ch ≥ 128 then 63 else ch)) scale j) :
    us_draw_char_nv12_y y_plane ys fw fh x y font ch scale fgY j = fgY := by
  rw [char_covered_iff] at hcov
  obtain ⟨cy, hcy, ht⟩ := hcov
  unfold us_draw_char_nv12_y
  refine @iterGo_const_hit _
    (char_touch_cy (font (if ch ≥ 128 then 63 else ch)) fw fh x y ys scale) fgY
    8 0 y_plane j cy ?_ ?_ (by omega) (by omega) ht
  · intro d st hd1 hd2 hnt
    refine char_cx_loop_frame (font (if ch ≥ 128 then 63 else ch)) fw fh x y ys scale
      d fgY st j ?_
    intro cx hcx ht2
    exact hnt ⟨cx, hcx, ht2⟩
  · intro d st hd1 hd2 ht2
    obtain ⟨cx, hcx, ht3⟩ := ht2
    exact char_cx_loop_hit (font (if ch ≥ 128 then 63 else ch)) fw fh x y ys scale
      d fgY st j cx hcx ht3

/-- The bitmap glyph renderer leaves every uncovered Y byte unchanged. -/
theorem us_draw_char_nv12_y_uncovered (y_plane : Buf) (ys fw fh x y : Nat)
    (font : Nat → Nat → Nat) (ch scale fgY : Nat) (j : Nat)
    (hnc : ¬ char_covered ys fw fh x y (font (if ch ≥ 128 then 63 else ch)) scale j) :
    us_draw_char_nv12_y y_plane ys fw fh x y font ch scale fgY j = y_plane j := by
  rw [char_covered_iff] at hnc
  unfold us_draw_char_nv12_y
  refine @iterGo_frame _
    (char_touch_cy (font (if ch ≥ 128 then 63 else ch)) fw fh x y ys scale)
    8 0 y_plane j ?_ ?_
  · intro d st hd1 hd2 hnt
    refine char_cx_loop_frame (font (if ch ≥ 128 then 63 else ch)) fw fh x y ys scale
      d fgY st j ?_
    intro cx hcx ht2
    exact hnt ⟨cx, hcx, ht2⟩
  · intro d hd1 hd2 ht
    exact hnc ⟨d, by omega, ht⟩

/-- For byte-valued inputs the `u8` cast in the blend is lossless, so the
blend is exactly the claim's `(alpha * c + (256 - alpha) * old) >> 8`. -/
theorem rect_blend_byte (a c old : Nat) (ha : a ≤ 255) (hc : c ≤ 255) (hold : old ≤ 255) :
    rect_blend a (256 - a) c old = (a * c + (256 - a) * old) >>> 8 := by
  unfold rect_blend
  rw [shiftRight8_eq]
  have h1 : a * c ≤ a * 255 := Nat.mul_le_mul_left a hc
  have h2 : (256 - a) * old ≤ (256 - a) * 255 := Nat.mul_le_mul_left _ hold
  omega

/-- With `bg_alpha = 0` the box pass leaves every byte of both planes
unchanged. -/
theorem us_draw_rect_nv12_alpha0 (y_plane uv_plane : Buf)
    (ys uss fw fh x y w h bgY bgU bgV : Nat)
    (hyb : ∀ j, y_plane j ≤ 255) (huvb : ∀ j, uv_plane j ≤ 255) :
    us_draw_rect_nv12 y_plane uv_plane ys uss fw fh x y w h bgY bgU bgV 0 =
      (y_plane, uv_plane) := by
  rw [us_draw_rect_nv12_split]
  have hy : us_draw_rect_nv12_y y_plane ys fw fh x y w h bgY 0 = y_plane := by
    unfold us_draw_rect_nv12_y
    refine iterGo_fixed y_plane ?_ _ _
    intro py
    refine iterGo_fixed y_plane ?_ _ _
    intro px
    show wr y_plane (py * ys + px)
        (rect_blend 0 (256 - 0) bgY (y_plane (py * ys + px))) = y_plane
    rw [rect_blend_zero _ _ (hyb _), wr_self]
  have huv : us_draw_rect_nv12_uv uv_plane uss fw fh x y w h bgU bgV 0 = uv_plane := by
    unfold us_draw_rect_nv12_uv
    refine iterGo_fixed uv_plane ?_ _ _
    intro py
    refine iterGo_fixed uv_plane ?_ _ _
    intro px
    by_cases hc : px % 2 = 0 ∧ py % 2 = 0
    · simp only [if_pos hc]
      rw [rect_blend_zero _ _ (huvb _), rect_blend_zero _ _ (huvb _), wr_self, wr_self]
    · simp only [if_neg hc]
  rw [hy, huv]

/-- C5: the overlay background box blends each covered Y pixel as
`(alpha * bg_y + (256 - alpha) * Y) >> 8` and applies the same blend to the
U and V bytes once per 2x2 block at even coordinates; the bitmap glyph
renderer sets covered Y pixels exactly to `fg_y` and leaves the rest
untouched; with `bg_alpha = 0` the box pass changes nothing; and on a 64x64
all-black (Y = 16) frame with overlay `{text = "A", scale = 1, fg_y = 235,
bg_alpha = 0}` the glyph pixels read 235 while every other Y byte (in
particular the box region) reads 16. -/
theorem C5_overlay_blend_and_glyph :
    (∀ (yp uvp : Buf) (ys uss fw fh x y w h bgY bgU bgV a px py : Nat),
      fw ≤ ys → fw ≤ uss → uss % 2 = 0 →
      a ≤ 255 → bgY ≤ 255 → bgU ≤ 255 → bgV ≤ 255 →
      (∀ j, yp j ≤ 255) → (∀ j, uvp j ≤ 255) →
      x ≤ px → px < min (x + w) fw → y ≤ py → py < min (y + h) fh →
      ((us_draw_rect_nv12 yp uvp ys uss fw fh x y w h bgY bgU bgV a).1 (py * ys + px) =
          (a * bgY + (256 - a) * yp (py * ys + px)) >>> 8 ∧
        (px % 2 = 0 → py % 2 = 0 →
          (us_draw_rect_nv12 yp uvp ys uss fw fh x y w h bgY bgU bgV a).2
              (py / 2 * uss + px) =
            (a * bgU + (256 - a) * uvp (py / 2 * uss + px)) >>> 8 ∧
          (us_draw_rect_nv12 yp uvp ys uss fw fh x y w h bgY bgU bgV a).2
              (py / 2 * uss + px + 1) =
            (a * bgV + (256 - a) * uvp (py / 2 * uss + px + 1)) >>> 8))) ∧
    (∀ (yp uvp : Buf) (ys uss fw fh x y : Nat) (font : Nat → Nat → Nat)
        (ch scale fgY fgU fgV j : Nat),
      (char_covered ys fw fh x y (font (if ch ≥ 128 then 63 else ch)) scale j →
        (us_draw_char_nv12 yp uvp ys uss fw fh x y font ch scale fgY fgU fgV).1 j = fgY) ∧
      (¬ char_covered ys fw fh x y (font (if ch ≥ 128 then 63 else ch)) scale j →
        (us_draw_char_nv12 yp uvp ys uss fw fh x y font ch scale fgY fgU fgV).1 j =
          yp j)) ∧
    (∀ (yp uvp : Buf) (ys uss fw fh x y w h bgY bgU bgV : Nat),
      (∀ j, yp j ≤ 255) → (∀ j, uvp j ≤ 255) →
      us_draw_rect_nv12 yp uvp ys uss fw fh x y w h bgY bgU bgV 0 = (yp, uvp)) ∧
    (∀ (font : Nat → Nat → Nat) (j : Nat),
      (char_covered 64 64 64 40 8 (font 65) 1 j →
        (us_overlay_draw_nv12
          { enabled := true, text := [65], position := .topRight, x := 0, y := 0,
            scale := 1, y_color := 235, u_color := 128, v_color := 128,
            background := true, bg_y := 16, bg_u := 128, bg_v := 128,
            bg_alpha := 0, padding := 8 }
          font (fun _ => 16) (fun _ => 128) 64 64 64 64).1 j = 235) ∧
      (¬ char_covered 64 64 64 40 8 (font 65) 1 j →
        (us_overlay_draw_nv12
          { enabled := true, text := [65], position := .topRight, x := 0, y := 0,
            scale := 1, y_color := 235, u_color := 128, v_color := 128,
            background := true, bg_y := 16, bg_u := 128, bg_v := 128,
            bg_alpha := 0, padding := 8 }
          font (fun _ => 16) (fun _ => 128) 64 64 64 64).1 j = 16)) := by
  refine ⟨?_, ?_, ?_, ?_⟩
  · intro yp uvp ys uss fw fh x y w h bgY bgU bgV a px py
    intro hys huss husse ha hbgY hbgU hbgV hyb huvb hx1 hx2 hy1 hy2
    rw [us_draw_rect_nv12_split]
    dsimp only
    constructor
    · rw [us_draw_rect_nv12_y_read yp ys fw fh x y w h bgY a px py hys hx1 hx2 hy1 hy2]
      exact rect_blend_byte a bgY _ ha hbgY (hyb _)
    · intro hpx hpy
      constructor
      · rw [us_draw_rect_nv12_uv_read_u uvp uss fw fh x y w h bgU bgV a px py
          huss husse hx1 hx2 hy1 hy2 hpx hpy]
        exact rect_blend_byte a bgU _ ha hbgU (huvb _)
      · rw [us_draw_rect_nv12_uv_read_v uvp uss fw fh x y w h bgU bgV a px py
          huss husse hx1 hx2 hy1 hy2 hpx hpy]
        exact rect_blend_byte a bgV _ ha hbgV (huvb _)
  · intro yp uvp ys uss fw fh x y font ch scale fgY fgU fgV j
    rw [us_draw_char_nv12_split]
    dsimp only
    constructor
    · intro hcov
      exact us_draw_char_nv12_y_covered yp ys fw fh x y font ch scale fgY j hcov
    · intro hnc
      exact us_draw_char_nv12_y_uncovered yp ys fw fh x y font ch scale fgY j hnc
  · intro yp uvp ys uss fw fh x y w h bgY bgU bgV hyb huvb
    exact us_draw_rect_nv12_alpha0 yp uvp ys uss fw fh x y w h bgY bgU bgV hyb huvb
  · intro font j
    have hsize : us_calc_text_size [65] 1 = (8, 8) := by decide
    have hpos : us_calc_position
        { enabled := true, text := [65], position := .topRight, x := 0, y := 0,
          scale := 1, y_color := 235, u_color := 128, v_color := 128,
          background := true, bg_y := 16, bg_u := 128, bg_v := 128,
          bg_alpha := 0, padding := 8 } 64 64 8 8 = (40, 8) := by decide
    have e : us_overlay_draw_nv12
        { enabled := true, text := [65], position := .topRight, x := 0, y := 0,
          scale := 1, y_color := 235, u_color := 128, v_color := 128,
          background := true, bg_y := 16, bg_u := 128, bg_v := 128,
          bg_alpha := 0, padding := 8 }
        font (fun _ => 16) (fun _ => 128) 64 64 64 64 =
      us_draw_char_nv12
        (us_draw_rect_nv12 (fun _ => 16) (fun _ => 128) 64 64 64 64 32 0 24 24
          16 128 128 0).1
        (us_draw_rect_nv12 (fun _ => 16) (fun _ => 128) 64 64 64 64 32 0 24 24
          16 128 128 0).2
        64 64 64 64 40 8 font 65 1 235 128 128 := by
      rw [us_overlay_draw_nv12, if_neg (by decide)]
      dsimp only
      rw [hsize]
      dsimp only
      rw [if_neg (by decide), hpos]
      dsimp only
      rw [if_pos rfl]
      simp only [List.foldl]
      rw [if_neg (by decide)]
      norm_num [toUint32]
      rfl
    have hrect : us_draw_rect_nv12 (fun _ => (16 : Nat)) (fun _ => (128 : Nat))
        64 64 64 64 32 0 24 24 16 128 128 0 =
        ((fun _ => 16), (fun _ => 128)) :=
      us_draw_rect_nv12_alpha0 _ _ _ _ _ _ _ _ _ _ _ _ _
        (fun _ => by decide) (fun _ => by decide)
    constructor
    · intro hcov
      rw [e, hrect, us_draw_char_nv12_split]
      exact us_draw_char_nv12_y_covered _ _ _ _ _ _ _ _ _ _ _ hcov
    · intro hnc
      rw [e, hrect, us_draw_char_nv12_split]
      exact us_draw_char_nv12_y_uncovered _ _ _ _ _ _ _ _ _ _ _ hnc

/-- C5 witness: a concrete blended Y byte.  On an all-16 Y plane with an
all-128 UV plane, a box at (0,0) of size 4x4 with `bg_y = 100` and
`bg_alpha = 128` blends the pixel (2,2) to `(128*100 + 128*16) >> 8`. -/
theorem C5_overlay_blend_and_glyph_witness :
    (us_draw_rect_nv12 (fun _ => 16) (fun _ => 128) 64 64 64 64 0 0 4 4
        100 90 80 128).1 (2 * 64 + 2) = (128 * 100 + (256 - 128) * 16) >>> 8 := by
  refine (C5_overlay_blend_and_glyph.1 (fun _ => 16) (fun _ => 128) 64 64 64 64 0 0 4 4
    100 90 80 128 2 2 ?_ ?_ ?_ ?_ ?_ ?_ ?_ ?_ ?_ ?_ ?_ ?_ ?_).1
  all_goals first | decide | (intro j; norm_num)

/-! ## C2: the compress contract (encoder.c `us_mpp_encoder_compress`) -/

/-- `_mpp_encoder_prepare` returns only `0` or `-1`. -/
theorem us_mpp_encoder_prepare_cases (v : MppVendor) (enc : MppEncState)
    (w h : Nat) (f : PixelFormat) :
    (us_mpp_encoder_prepare v enc w h f).1 = 0 ∨
      (us_mpp_encoder_prepare v enc w h f).1 = -1 := by
  unfold us_mpp_encoder_prepare
  repeat' (split_ifs <;> simp)

/-- An unsupported source pixel format (one that maps to `MPP_FMT_BUTT`)
makes `_mpp_encoder_prepare` fail with `-1`. -/
theorem us_mpp_encoder_prepare_butt (v : MppVendor) (enc : MppEncState)
    (w h : Nat) (f : PixelFormat) (hf : us_v4l2_to_mpp_format f = .BUTT) :
    (us_mpp_encoder_prepare v enc w h f).1 = -1 := by
  simp [us_mpp_encoder_prepare, hf]

/-- C2: the compress contract.  The return value is `0` or `-1`; the encoder
state returned is always exactly what `_mpp_encoder_prepare` left (the
per-frame path never changes the configured state); `encode_begin_ts` is
stamped (and the output format set to JPEG) on entry in every outcome; a
`0` return forces `frame_init`, `buf_ptr`, `put` and `get` to have
succeeded, `prepare` to have returned `0`, a non-NV12 source to fit the DMA
buffer, and the destination frame to hold the non-empty packet bytes with
`key = true`, `gop = 0` and `encode_end_ts = te`; and each of the listed
failure causes (unsupported format, failed prepare, failed put/get, NULL or
empty packet, oversized non-NV12 source) forces a `-1` return. -/
theorem C2_compress_contract (scale : ScalePolicy) (overlay : Option OverlayConfig)
    (font : Nat → Nat → Nat) (v : MppVendor) (tb te : Nat)
    (enc : MppEncState) (frame_buf : Buf) (src : SrcFrame) (dest : DestFrame) :
    ((us_mpp_encoder_compress scale overlay font v tb te enc frame_buf src dest).1 = 0 ∨
      (us_mpp_encoder_compress scale overlay font v tb te enc frame_buf src dest).1 = -1) ∧
    (us_mpp_encoder_compress scale overlay font v tb te enc frame_buf src dest).2.1 =
      (us_mpp_encoder_prepare v enc (us_get_target_resolution scale (srcGeom src)).1
        (us_get_target_resolution scale (srcGeom src)).2 src.format).2 ∧
    ((us_mpp_encoder_compress scale overlay font v tb te enc
        frame_buf src dest).2.2.1.encode_begin_ts = tb ∧
      (us_mpp_encoder_compress scale overlay font v tb te enc
        frame_buf src dest).2.2.1.format = PixelFormat.JPEG) ∧
    ((us_mpp_encoder_compress scale overlay font v tb te enc frame_buf src dest).1 = 0 →
      v.frame_init_ok = true ∧ v.buf_ptr_ok = true ∧ v.put_ok = true ∧ v.get_ok = true ∧
      (us_mpp_encoder_prepare v enc (us_get_target_resolution scale (srcGeom src)).1
        (us_get_target_resolution scale (srcGeom src)).2 src.format).1 = 0 ∧
      (src.format ≠ PixelFormat.NV12 →
        src.used ≤ mpp_frame_size (us_mpp_encoder_prepare v enc
          (us_get_target_resolution scale (srcGeom src)).1
          (us_get_target_resolution scale (srcGeom src)).2 src.format).2) ∧
      ∃ bytes, v.packet = some bytes ∧ 0 < bytes.length ∧
        (us_mpp_encoder_compress scale overlay font v tb te enc frame_buf src dest).2.2.1 =
          { data := bytes, used := bytes.length, format := PixelFormat.JPEG,
            key := true, gop := 0, encode_begin_ts := tb, encode_end_ts := te }) ∧
    (us_v4l2_to_mpp_format src.format = MppFormat.BUTT →
      (us_mpp_encoder_compress scale overlay font v tb te enc frame_buf src dest).1 = -1) ∧
    ((us_mpp_encoder_prepare v enc (us_get_target_resolution scale (srcGeom src)).1
        (us_get_target_resolution scale (srcGeom src)).2 src.format).1 < 0 →
      (us_mpp_encoder_compress scale overlay font v tb te enc frame_buf src dest).1 = -1 ∧
      (us_mpp_encoder_compress scale overlay font v tb te enc frame_buf src dest).2.2.1 =
        us_frame_encoding_begin dest tb) ∧
    (v.put_ok = false →
      (us_mpp_encoder_compress scale overlay font v tb te enc frame_buf src dest).1 = -1) ∧
    (v.get_ok = false →
      (us_mpp_encoder_compress scale overlay font v tb te enc frame_buf src dest).1 = -1) ∧
    (v.packet = none →
      (us_mpp_encoder_compress scale overlay font v tb te enc frame_buf src dest).1 = -1) ∧
    (v.packet = some [] →
      (us_mpp_encoder_compress scale overlay font v tb te enc frame_buf src dest).1 = -1) ∧
    (src.format ≠ PixelFormat.NV12 →
      mpp_frame_size (us_mpp_encoder_prepare v enc
        (us_get_target_resolution scale (srcGeom src)).1
        (us_get_target_resolution scale (srcGeom src)).2 src.format).2 < src.used →
      (us_mpp_encoder_compress scale overlay font v tb te enc frame_buf src dest).1 = -1) := by
  have h01 : (us_mpp_encoder_compress scale overlay font v tb te enc frame_buf src dest).1 = 0 ∨
      (us_mpp_encoder_compress scale overlay font v tb te enc frame_buf src dest).1 = -1 := by
    unfold us_mpp_encoder_compress
    simp only []
    repeat' split
    all_goals first | exact Or.inl rfl | exact Or.inr rfl
  have hstate : (us_mpp_encoder_compress scale overlay font v tb te enc frame_buf src dest).2.1 =
      (us_mpp_encoder_prepare v enc (us_get_target_resolution scale (srcGeom src)).1
        (us_get_target_resolution scale (srcGeom src)).2 src.format).2 := by
    unfold us_mpp_encoder_compress
    simp only []
    repeat' split
    all_goals rfl
  have hbegin : (us_mpp_encoder_compress scale overlay font v tb te enc
        frame_buf src dest).2.2.1.encode_begin_ts = tb ∧
      (us_mpp_encoder_compress scale overlay font v tb te enc
        frame_buf src dest).2.2.1.format = PixelFormat.JPEG := by
    unfold us_mpp_encoder_compress
    simp only []
    repeat' split
    all_goals exact ⟨rfl, rfl⟩
  have hprep6 : (us_mpp_encoder_prepare v enc (us_get_target_resolution scale (srcGeom src)).1
        (us_get_target_resolution scale (srcGeom src)).2 src.format).1 < 0 →
      (us_mpp_encoder_compress scale overlay font v tb te enc frame_buf src dest).1 = -1 ∧
      (us_mpp_encoder_compress scale overlay font v tb te enc frame_buf src dest).2.2.1 =
        us_frame_encoding_begin dest tb := by
    intro hlt
    unfold us_mpp_encoder_compress
    simp only []
    repeat' split
    all_goals try exact ⟨rfl, rfl⟩
    all_goals exact absurd hlt (by assumption)
  have hsuccA : (us_mpp_encoder_compress scale overlay font v tb te enc frame_buf src dest).1 = -1 ∨
      (v.frame_init_ok = true ∧ v.buf_ptr_ok = true ∧ v.put_ok = true ∧ v.get_ok = true ∧
        (us_mpp_encoder_prepare v enc (us_get_target_resolution scale (srcGeom src)).1
          (us_get_target_resolution scale (srcGeom src)).2 src.format).1 = 0 ∧
        (src.format ≠ PixelFormat.NV12 →
          src.used ≤ mpp_frame_size (us_mpp_encoder_prepare v enc
            (us_get_target_resolution scale (srcGeom src)).1
            (us_get_target_resolution scale (srcGeom src)).2 src.format).2)) := by
    unfold us_mpp_encoder_compress
    simp only []
    repeat' split
    all_goals try exact Or.inl rfl
    all_goals
      refine Or.inr ⟨of_not_not (by assumption), of_not_not (by assumption),
        of_not_not (by assumption), of_not_not (by assumption), ?_, ?_⟩
      · rcases us_mpp_encoder_prepare_cases v enc
            (us_get_target_resolution scale (srcGeom src)).1
            (us_get_target_resolution scale (srcGeom src)).2 src.format with h0 | h1
        · exact h0
        · exfalso
          have hnl : ¬ (us_mpp_encoder_prepare v enc
              (us_get_target_resolution scale (srcGeom src)).1
              (us_get_target_resolution scale (srcGeom src)).2 src.format).1 < 0 := by
            assumption
          rw [h1] at hnl
          exact hnl (by norm_num)
      · intro hne
        first
        | exact absurd (show src.format = PixelFormat.NV12 by assumption) hne
        | (by_cases h7 : src.used > mpp_frame_size (us_mpp_encoder_prepare v enc
              (us_get_target_resolution scale (srcGeom src)).1
              (us_get_target_resolution scale (srcGeom src)).2 src.format).2
           · exfalso
             simp_all
           · exact Nat.le_of_not_lt h7)
  have hsuccB : (us_mpp_encoder_compress scale overlay font v tb te enc frame_buf src dest).1 = -1 ∨
      (∃ bytes, v.packet = some bytes ∧ 0 < bytes.length ∧
        (us_mpp_encoder_compress scale overlay font v tb te enc frame_buf src dest).2.2.1 =
          { data := bytes, used := bytes.length, format := PixelFormat.JPEG,
            key := true, gop := 0, encode_begin_ts := tb, encode_end_ts := te }) := by
    unfold us_mpp_encoder_compress
    lift_lets
    intros
    rename_i d0 t0 tw0 th0 nd0 p0 e0 bs0 b0 c0 s0
    clear_value c0
    repeat' split
    all_goals try (lift_lets; intros; repeat' split)
    all_goals try (lift_lets; intros; repeat' split)
    all_goals try exact Or.inl rfl
    all_goals
      refine Or.inr (⟨_, ?_, ?_, rfl⟩ : ∃ _, _) <;> assumption
  have hsucc : (us_mpp_encoder_compress scale overlay font v tb te enc frame_buf src dest).1 = 0 →
      v.frame_init_ok = true ∧ v.buf_ptr_ok = true ∧ v.put_ok = true ∧ v.get_ok = true ∧
      (us_mpp_encoder_prepare v enc (us_get_target_resolution scale (srcGeom src)).1
        (us_get_target_resolution scale (srcGeom src)).2 src.format).1 = 0 ∧
      (src.format ≠ PixelFormat.NV12 →
        src.used ≤ mpp_frame_size (us_mpp_encoder_prepare v enc
          (us_get_target_resolution scale (srcGeom src)).1
          (us_get_target_resolution scale (srcGeom src)).2 src.format).2) ∧
      ∃ bytes, v.packet = some bytes ∧ 0 < bytes.length ∧
        (us_mpp_encoder_compress scale overlay font v tb te enc frame_buf src dest).2.2.1 =
          { data := bytes, used := bytes.length, format := PixelFormat.JPEG,
            key := true, gop := 0, encode_begin_ts := tb, encode_end_ts := te } := by
    intro h0
    rcases hsuccA with hm1 | hokA
    · exact absurd (h0.symm.trans hm1) (by norm_num)
    rcases hsuccB with hm1 | hokB
    · exact absurd (h0.symm.trans hm1) (by norm_num)
    exact ⟨hokA.1, hokA.2.1, hokA.2.2.1, hokA.2.2.2.1, hokA.2.2.2.2.1,
      hokA.2.2.2.2.2, hokB⟩
  refine ⟨h01, hstate, hbegin, hsucc, ?_, hprep6, ?_, ?_, ?_, ?_, ?_⟩
  · intro hb
    exact (hprep6 (by
      rw [us_mpp_encoder_prepare_butt v enc _ _ src.format hb]; norm_num)).1
  · intro hput
    rcases h01 with h0 | h1
    · obtain ⟨_, _, hputT, _⟩ := hsucc h0
      rw [hput] at hputT
      exact absurd hputT (by simp)
    · exact h1
  · intro hget
    rcases h01 with h0 | h1
    · obtain ⟨_, _, _, hgetT, _⟩ := hsucc h0
      rw [hget] at hgetT
      exact absurd hgetT (by simp)
    · exact h1
  · intro hnone
    rcases h01 with h0 | h1
    · obtain ⟨_, _, _, _, _, _, bytes, hpkt, _⟩ := hsucc h0
      rw [hnone] at hpkt
      exact absurd hpkt (by simp)
    · exact h1
  · intro hempty
    rcases h01 with h0 | h1
    · obtain ⟨_, _, _, _, _, _, bytes, hpkt, hlen, _⟩ := hsucc h0
      rw [hempty] at hpkt
      obtain rfl : bytes = [] := by
        injection hpkt with h
        exact h.symm
      simp at hlen
    · exact h1
  · intro hfmt hover
    rcases h01 with h0 | h1
    · obtain ⟨_, _, _, _, _, hsize, _⟩ := hsucc h0
      exact absurd (hsize hfmt) (by omega)
    · exact h1

/-- C2 witness: a concrete run hitting the empty-packet failure clause of
the contract: an all-success vendor whose retrieved packet is empty makes
`compress` return `-1`. -/
theorem C2_compress_contract_witness :
    (us_mpp_encoder_compress .native none (fun _ _ => 0)
      ⟨true, true, true, true, true, true, true, true, true, true, true, true, some []⟩
      5 9 ⟨80, 8, 8, 16, 16, .YUV420SP, true⟩ (fun _ => 0)
      ⟨8, 8, .NV12, (fun _ => 0), 96⟩ ⟨[], 0, .NV12, false, 3, 0, 0⟩).1 = -1 :=
  (C2_compress_contract .native none (fun _ _ => 0)
      ⟨true, true, true, true, true, true, true, true, true, true, true, true, some []⟩
      5 9 ⟨80, 8, 8, 16, 16, .YUV420SP, true⟩ (fun _ => 0)
      ⟨8, 8, .NV12, (fun _ => 0), 96⟩
      ⟨[], 0, .NV12, false, 3, 0, 0⟩).2.2.2.2.2.2.2.2.2.1 rfl

/-! ## C10: the draw is a no-op when disabled or without text -/

/-- C10: when the overlay is disabled, or its text is empty, or the computed
text dimensions are zero, `us_overlay_draw_nv12` returns both planes exactly
as given — the draw is a complete no-op on the frame buffer. -/
theorem C10_draw_noop_when_disabled (config : OverlayConfig) (font : Nat → Nat → Nat)
    (yp uvp : Buf) (w h ys uss : Nat)
    (hcond : config.enabled = false ∨ config.text = [] ∨
      (us_calc_text_size config.text config.scale).1 = 0 ∨
      (us_calc_text_size config.text config.scale).2 = 0) :
    us_overlay_draw_nv12 config font yp uvp w h ys uss = (yp, uvp) := by
  unfold us_overlay_draw_nv12
  by_cases h1 : ¬ config.enabled = true ∨ config.text = []
  · rw [if_pos h1]
  · rw [if_neg h1]
    dsimp only
    rcases hcond with h | h | h | h
    · exact absurd (Or.inl (by simp [h])) h1
    · exact absurd (Or.inr h) h1
    · rw [if_pos (Or.inl h)]
    · rw [if_pos (Or.inr h)]

/-- C10 witness: with `enabled = false` the draw returns the planes as
given. -/
theorem C10_draw_noop_witness :
    us_overlay_draw_nv12
      { enabled := false, text := [65], position := .topRight, x := 0, y := 0,
        scale := 1, y_color := 235, u_color := 128, v_color := 128,
        background := true, bg_y := 16, bg_u := 128, bg_v := 128,
        bg_alpha := 0, padding := 8 }
      (fun _ _ => 0) (fun _ => 7) (fun _ => 9) 64 64 64 64 =
      ((fun _ => 7), (fun _ => 9)) :=
  C10_draw_noop_when_disabled _ _ _ _ _ _ _ _ (Or.inl rfl)
